import Mathlib

/-!
Shallow embedding of the `immutable-record` library (b-gran/immutable-record).

The embedding follows the current source modules:
  * `src/RecordSchema.js` — aggregate shape description and validation,
  * `src/FieldValue.js`  — per-field value description and validation,
  * `src/index.js`       — the Record factory (constructor, `set`, `remove`).

JavaScript runtime values are modelled by the inductive type `JSValue`; plain
objects are association lists of string keys to values, in insertion order
(JavaScript objects enumerate string keys in insertion order).  A function
value is modelled by its arity together with an identifier into a validator
environment `FEnv` mapping each identifier to the boolean predicate the
function computes when called as a validator; the environment is passed to
every operation that can call a validator.  Code that throws is modelled with
`Except RecErr`.
-/

set_option autoImplicit false

namespace ImmutableRecord

/-- A JavaScript runtime value, restricted to the kinds the library manipulates:
`undefined`, `null`, booleans, numbers (modelled as integers), strings,
functions (arity plus an identifier into the validator environment), and
plain objects (association lists in insertion order). -/
inductive JSValue where
  | undef : JSValue
  | jsNull : JSValue
  | bool (b : Bool) : JSValue
  | num (n : Int) : JSValue
  | str (s : String) : JSValue
  | func (arity : Nat) (fid : Nat) : JSValue
  | obj (fields : List (String × JSValue)) : JSValue

/-- A plain JavaScript object: an association list of own enumerable string
keys to values, in insertion order. -/
abbrev JSObj := List (String × JSValue)

/-- A validator environment: the boolean result each function value computes on
each argument.  Calling the function value `JSValue.func a i` on `v` returns
the boolean `fenv i v`, coerced from the JavaScript result by `!!`. -/
abbrev FEnv := Nat → JSValue → Bool

/-- True exactly on the `undefined` value (`_.isUndefined`). -/
def JSValue.isUndef : JSValue → Bool
  | .undef => true
  | _ => false

/-- True on `null` and `undefined` (`_.isNil`). -/
def JSValue.isNil : JSValue → Bool
  | .undef => true
  | .jsNull => true
  | _ => false

/-- True exactly on plain objects (`_.isPlainObject`). -/
def JSValue.isPlainObject : JSValue → Bool
  | .obj _ => true
  | _ => false

/-- JavaScript truthiness of a value.  (`NaN` is not modelled; all numbers
other than zero are truthy.) -/
def truthy : JSValue → Bool
  | .undef => false
  | .jsNull => false
  | .bool b => b
  | .num n => decide (n ≠ 0)
  | .str s => decide (s ≠ "")
  | .func _ _ => true
  | .obj _ => true

/-- The `typeof` operator.  Note every result is a lowercase string. -/
def jsTypeof : JSValue → String
  | .undef => "undefined"
  | .jsNull => "object"
  | .bool _ => "boolean"
  | .num _ => "number"
  | .str _ => "string"
  | .func _ _ => "function"
  | .obj _ => "object"

/-- Look up the value bound to key `k` (first binding wins, as in a JavaScript
object, whose keys are unique).  `some JSValue.undef` is a key present with the
value `undefined`; `none` is an absent key. -/
def jsGet (o : JSObj) (k : String) : Option JSValue :=
  match o with
  | [] => none
  | (k', v) :: rest => if k' = k then some v else jsGet rest k

/-- Own-property test on a plain object (the `in` operator / `_.has`). -/
def jsHas (o : JSObj) (k : String) : Bool :=
  (jsGet o k).isSome

/-- Property read on a plain object (`o[k]`): absent keys read as `undefined`. -/
def jsIndex (o : JSObj) (k : String) : JSValue :=
  (jsGet o k).getD JSValue.undef

/-- The keys of a plain object, in insertion order (`Object.keys`). -/
def jsKeys (o : JSObj) : List String :=
  o.map Prod.fst

/-- Property read through an arbitrary value (`v.k`).  Reading a property of
`null` or `undefined` throws a `TypeError`; reads on other primitives and on
functions yield `undefined` for the properties this library reads. -/
def jsDot (v : JSValue) (k : String) : Option JSValue :=
  match v with
  | .obj o => some (jsIndex o k)
  | .undef => none
  | .jsNull => none
  | _ => some JSValue.undef

/-- The `in` operator applied to an arbitrary value (`k in v`).  It throws a
`TypeError` on primitives (including `null` and `undefined`); on a function it
is `false` for the keys this library tests. -/
def jsInOp (k : String) (v : JSValue) : Option Bool :=
  match v with
  | .obj o => some (jsHas o k)
  | .func _ _ => some false
  | _ => none

/-- `_.pick(o, ks)`: the object binding each key of `ks` present in `o` to its
value in `o`, in the order of `ks`. -/
def jsPick (o : JSObj) (ks : List String) : JSObj :=
  ks.filterMap (fun k => (jsGet o k).map (fun v => (k, v)))

/-- `_.defaults(o, src)`: every binding of `o` whose value is `undefined` is
replaced by the binding of `src` at the same key (when `src` has one), and the
bindings of `src` at keys absent from `o` are appended in order.  Note lodash
replaces a key that is *present with the value `undefined`*, not only absent
keys. -/
def jsDefaults (o : JSObj) (src : JSObj) : JSObj :=
  (o.map (fun kv =>
    if kv.2.isUndef then
      match jsGet src kv.1 with
      | some d => (kv.1, d)
      | none => kv
    else kv))
  ++ src.filter (fun kv => !jsHas o kv.1)

/-- `_.set(clone, k, v)` on a simple (atomic) key: replace the binding in place
when the key is present, otherwise append it.  Keys are modelled as atomic: the
lodash path syntax for keys containing dots or brackets is not modelled. -/
def jsSet (o : JSObj) (k : String) (v : JSValue) : JSObj :=
  if jsHas o k then o.map (fun kv => if kv.1 = k then (k, v) else kv)
  else o ++ [(k, v)]

/-- `_.unset(clone, k)` / `_.omit` on a simple key: drop the binding. -/
def jsUnset (o : JSObj) (k : String) : JSObj :=
  o.filter (fun kv => kv.1 != k)

example : jsGet [("a", .num 1), ("b", .num 2)] "b" = some (.num 2) := rfl
example : jsDefaults [("a", .undef)] [("a", .num 5), ("c", .num 7)]
    = [("a", .num 5), ("c", .num 7)] := rfl
example : jsPick [("b", .num 2), ("a", .num 1)] ["a", "z"] = [("a", .num 1)] := rfl

/-- The distinct error outcomes of the library, one constructor per throw site
(TypeErrors raised by the runtime itself are collapsed into `typeError`). -/
inductive RecErr where
  | notPlainDefinition : RecErr
  | disallowedKeys (ks : List String) : RecErr
  | typeInvalid : RecErr
  | requiredInvalid : RecErr
  | enumerableInvalid : RecErr
  | schemaNotPlainObject : RecErr
  | schemaEmpty : RecErr
  | schemaValueInvalidKey : RecErr
  | schemaTypeInvalid : RecErr
  | schemaRequiredInvalid : RecErr
  | defaultNotValidForType : RecErr
  | inputNotPlainObject : RecErr
  | missingField (k : String) : RecErr
  | invalidFieldValue (k : String) : RecErr
  | notAField (k : String) : RecErr
  | immutableWrite : RecErr
  | notValidTypeDefinition : RecErr
  | typeError : RecErr
  deriving DecidableEq

/-! ### FieldValue (src/FieldValue.js) and shared type checks -/

/-- The possible string results of the `typeof` operator; the same list appears
in `FieldValue.js` (`Definition.TYPE_STRINGS`) and `RecordSchema.js`
(`TYPE_STRINGS`). -/
def TYPE_STRINGS : List String :=
  ["object", "string", "number", "symbol", "boolean", "function", "undefined"]

/-- `String.prototype.toLowerCase`, modelled as per-character lower-casing
(the strings this library lower-cases are ASCII, where the two agree). -/
def jsToLower (s : String) : String :=
  ⟨s.data.map Char.toLower⟩

/-- A type definition is a type string when it is a string whose lower-casing
is one of `TYPE_STRINGS` (`isTypeString` in `RecordSchema.js`,
`Definition.validators._isTypeString` in `FieldValue.js`). -/
def isTypeString (typeString : JSValue) : Bool :=
  match typeString with
  | .str s => TYPE_STRINGS.contains (jsToLower s)
  | _ => false

/-- A type definition is a validator function when it is a function of arity
exactly 1 (`isValidatorFunction` / `Definition.validators._isValidatorFunction`). -/
def isValidatorFunction (validatorFunction : JSValue) : Bool :=
  match validatorFunction with
  | .func arity _ => arity == 1
  | _ => false

/-- The keys a `FieldValue` definition may use (`Definition.ALLOWED_KEYS`). -/
def ALLOWED_KEYS : List String :=
  ["type", "required", "enumerable", "default"]

namespace Definition

/-- The "don't care" test.  The source compares `definition === null ||
definition === \x7b\x7d`; the second comparison is reference equality against a
freshly allocated object and is therefore always false, so only `null` is a
"don't care" definition. -/
def isDontCare (definition : JSValue) : Bool :=
  match definition with
  | .jsNull => true
  | _ => false

/-- `Definition.validators.type`: returns `null` for a valid type (note: a
falsy value) and throws otherwise. -/
def validatorType (typeDefinition : JSValue) : Except RecErr JSValue :=
  if isTypeString typeDefinition then .ok .jsNull
  else if isValidatorFunction typeDefinition then .ok .jsNull
  else .error .typeInvalid

/-- `Definition.validators.required`: `null` for a boolean, throws otherwise. -/
def validatorRequired (requiredDefinition : JSValue) : Except RecErr JSValue :=
  match requiredDefinition with
  | .bool _ => .ok .jsNull
  | _ => .error .requiredInvalid

/-- `Definition.validators.enumerable`: `null` for a boolean, throws otherwise. -/
def validatorEnumerable (enumerableDefinition : JSValue) : Except RecErr JSValue :=
  match enumerableDefinition with
  | .bool _ => .ok .jsNull
  | _ => .error .enumerableInvalid

/-- One step of the `ALLOWED_KEYS.reduce` in `checkValidDefinition`: a key is
valid when its value is `undefined` or its validator does not throw; the
value's truthiness (always false for the `null` the validators return on
type/required/enumerable, true for the `default` validator) feeds the
conjunction the source accumulates and then ignores. -/
def checkKey (o : JSObj) (keyName : String) : Except RecErr Bool := do
  let propertyValue := jsIndex o keyName
  if propertyValue.isUndef then
    pure true
  else do
    let r ← (match keyName with
      | "type" => validatorType propertyValue
      | "required" => validatorRequired propertyValue
      | "enumerable" => validatorEnumerable propertyValue
      | _ => pure (.bool true))
    pure (truthy r)

/-- `Definition.checkValidDefinition`: accepts `null` at once, throws for a
non-object, throws when a key outside `ALLOWED_KEYS` is used, and otherwise
runs each per-key validator (each of which throws on an invalid value).  Its
boolean result is the (buggy, ignored) conjunction the source computes. -/
def checkValidDefinition (definition : JSValue) : Except RecErr Bool :=
  if isDontCare definition then .ok true
  else match definition with
    | .obj o =>
      let disallowedKeys := (jsKeys o).filter (fun k => !ALLOWED_KEYS.contains k)
      if disallowedKeys.isEmpty then
        ALLOWED_KEYS.foldlM (fun definitionIsValid keyName => do
          let keyIsValid ← checkKey o keyName
          pure (definitionIsValid && keyIsValid)) true
      else .error (.disallowedKeys disallowedKeys)
    | _ => .error .notPlainDefinition

end Definition

/-- The stored normalized definition of a `FieldValue`. -/
structure FieldValue where
  __definition : JSObj

/-- `FieldValue.Defaults`.  The `default` key is deliberately absent so that
`hasDefault` can distinguish "no default" from a default of `undefined`. -/
def FieldValue.Defaults : JSObj :=
  [("type", .undef), ("required", .bool false), ("enumerable", .bool true)]

/-- The `FieldValue` constructor: check the definition (which throws on an
invalid one), then store `_.defaults(definition || \x7b\x7d, FieldValue.Defaults)`.
After the check the definition is `null` or a plain object, so `definition ||
\x7b\x7d` is the empty object exactly when the definition is `null`. -/
def FieldValue.make (definition : JSValue) : Except RecErr FieldValue := do
  let _ ← Definition.checkValidDefinition definition
  let base : JSObj := match definition with
    | .obj o => o
    | _ => []
  pure ⟨jsDefaults base FieldValue.Defaults⟩

/-- The `required` getter. -/
def FieldValue.required (fv : FieldValue) : JSValue :=
  jsIndex fv.__definition "required"

/-- The `enumerable` getter. -/
def FieldValue.enumerable (fv : FieldValue) : JSValue :=
  jsIndex fv.__definition "enumerable"

/-- The `default` getter (named `defaultVal` here because `default` is a Lean
keyword in some positions). -/
def FieldValue.defaultVal (fv : FieldValue) : JSValue :=
  jsIndex fv.__definition "default"

/-- `hasDefault()`: true iff a `default` key is present on the stored
definition, even one bound to `undefined`. -/
def FieldValue.hasDefault (fv : FieldValue) : Bool :=
  jsHas fv.__definition "default"

/-- `FieldValue.isValid(value)`: an `undefined` value is valid iff the field is
not required; a defined value is valid iff it matches the type (`matchesType`
switches on `typeof type` with no default case, so any other type value yields
`undefined`, which is falsy).  The source's second required-and-undefined check
is unreachable and the `notRequiredAndNotDefined` flag is always false on the
path that uses it; both are reproduced verbatim. -/
def FieldValue.isValid (fenv : FEnv) (fv : FieldValue) (value : JSValue) : Bool :=
  let type := jsIndex fv.__definition "type"
  let required := truthy (jsIndex fv.__definition "required")
  let matchesType : Bool :=
    match type with
    | .undef => true
    | .str s => jsTypeof value == s
    | .func _ fid => fenv fid value
    | _ => false
  if value.isUndef then
    !required
  else
    let notRequiredAndNotDefined := !required && value.isUndef
    notRequiredAndNotDefined || matchesType

/-! ### RecordSchema (src/RecordSchema.js) -/

/-- `isEmptyObject`: a plain object with zero enumerable keys, or nil. -/
def isEmptyObject (object : JSValue) : Bool :=
  (match object with
   | .obj o => o.isEmpty
   | _ => false) || object.isNil

/-- `doesSchemaValueContainInvalidKeys`: true when the value uses an enumerable
key other than `type`, `default` and `required` (note: unlike `FieldValue`,
`enumerable` is *not* allowed here). -/
def doesSchemaValueContainInvalidKeys (schemaValue : JSObj) : Bool :=
  !((jsKeys schemaValue).filter (fun k => !(["type", "default", "required"].contains k))).isEmpty

/-- `isValidForType(type, value)`: switch on `typeof type` — no type accepts
everything, a string type compares `typeof value` to the type string exactly as
written, a function type applies the validator; any other type throws. -/
def isValidForType (fenv : FEnv) (type : JSValue) (value : JSValue) : Except RecErr Bool :=
  match type with
  | .undef => .ok true
  | .str s => .ok (jsTypeof value == s)
  | .func _ fid => .ok (fenv fid value)
  | _ => .error .notValidTypeDefinition

/-- `isRecordSchemaValue`: nil and empty objects are valid; an object may use
only `type`/`default`/`required`, each present key must satisfy its validator
(the source tests them in the value's own key order; only which of two errors
is reported can differ from the fixed order used here), and a present
type/default pair must agree.  A function value has no own enumerable keys and
no `type`/`default` property, so it is accepted; other non-object values make
the source throw — a non-empty string via its index keys, the rest via the `in`
operator (a TypeError). -/
def isRecordSchemaValue (fenv : FEnv) (recordSchemaValue : JSValue) : Except RecErr Bool :=
  if isEmptyObject recordSchemaValue then .ok true
  else match recordSchemaValue with
    | .obj o =>
      if doesSchemaValueContainInvalidKeys o then .error .schemaValueInvalidKey
      else do
        let _ ← (match jsGet o "type" with
          | some typeValue =>
            if isTypeString typeValue || isValidatorFunction typeValue then
              (pure true : Except RecErr Bool)
            else .error .schemaTypeInvalid
          | none => pure true)
        let _ ← (match jsGet o "required" with
          | some requiredValue =>
            (match requiredValue with
             | .bool _ => (pure true : Except RecErr Bool)
             | _ => .error .schemaRequiredInvalid)
          | none => pure true)
        if ¬ (jsHas o "type" && jsHas o "default") then pure true
        else do
          let ok ← isValidForType fenv (jsIndex o "type") (jsIndex o "default")
          if ok then pure true else .error .defaultNotValidForType
    | .func _ _ => .ok true
    | .str s => if s ≠ "" then .error .schemaValueInvalidKey else .error .typeError
    | _ => .error .typeError

/-- The `_.every(recordSchema, isRecordSchemaValue)` loop of
`validateRecordSchema`, over the schema's values in order. -/
def validateSchemaValues (fenv : FEnv) : List (String × JSValue) → Except RecErr Bool
  | [] => .ok true
  | kv :: rest => do
    let b ← isRecordSchemaValue fenv kv.2
    if b then validateSchemaValues fenv rest else .ok false

/-- `validateRecordSchema`: the schema must be a plain object with at least one
key and every value must be a valid schema value. -/
def validateRecordSchema (fenv : FEnv) (recordSchema : JSValue) : Except RecErr Bool :=
  match recordSchema with
  | .obj o =>
    if o.isEmpty then .error .schemaEmpty
    else validateSchemaValues fenv o
  | _ => .error .schemaNotPlainObject

/-- A constructed `RecordSchema`: the validated raw shape object (frozen in the
source). -/
structure RecordSchema where
  schema : JSObj

/-- The `RecordSchema` constructor: validate (throwing on an invalid shape) and
store the shape. -/
def RecordSchema.make (fenv : FEnv) (schema : JSValue) : Except RecErr RecordSchema := do
  let _ ← validateRecordSchema fenv schema
  match schema with
  | .obj o => pure ⟨o⟩
  | _ => .error .schemaNotPlainObject

/-- `hasProperty(propertyName)`: the `in` test against the stored shape. -/
def RecordSchema.hasProperty (rs : RecordSchema) (propertyName : String) : Bool :=
  jsHas rs.schema propertyName

/-- `removeInvalidInputKeys(input)`: `_.pick(input, Object.keys(schema))`.
`_.pick` of a nil input is the empty object; the record constructor only
reaches this after `validateInput`, which rejects every other non-object. -/
def RecordSchema.removeInvalidInputKeys (rs : RecordSchema) (input : JSValue) : JSObj :=
  match input with
  | .obj o => jsPick o (jsKeys rs.schema)
  | _ => []

/-- `isFieldRequired(key, schema)`: `schemaValue.required && !('default' in
schemaValue)`.  Reading `.required` of a nil schema value, or applying `in` to
it, throws a TypeError. -/
def isFieldRequired (key : String) (schema : JSObj) : Except RecErr Bool := do
  let schemaValue := jsIndex schema key
  match jsDot schemaValue "required" with
  | none => .error .typeError
  | some requiredValue =>
    if truthy requiredValue then
      match jsInOp "default" schemaValue with
      | none => .error .typeError
      | some hasDef => pure (!hasDef)
    else pure false

/-- `validateInputValue(key, schema, recordInput)`: nil input is treated as the
empty object (a non-nil, non-object input never reaches this function through
`validateInput`); an absent key throws iff the field is required with no
default, and a present key must satisfy the type when one is declared. -/
def validateInputValue (fenv : FEnv) (key : String) (schema : JSObj) (recordInput : JSValue) :
    Except RecErr Bool := do
  let input : JSObj := match recordInput with
    | .obj o => o
    | _ => []
  if ¬ jsHas input key then do
    let req ← isFieldRequired key schema
    if req then .error (.missingField key) else pure true
  else
    let schemaValue := jsIndex schema key
    match jsInOp "type" schemaValue with
    | none => .error .typeError
    | some hasType =>
      if ¬ hasType then pure true
      else do
        let inputValue := jsIndex input key
        match jsDot schemaValue "type" with
        | none => .error .typeError
        | some typeValue => do
          let ok ← isValidForType fenv typeValue inputValue
          if ¬ ok then .error (.invalidFieldValue key) else pure true

/-- `_.every` over a list of keys with a throwing, short-circuiting check. -/
def lodashEvery (keys : List String) (check : String → Except RecErr Bool) :
    Except RecErr Bool :=
  match keys with
  | [] => .ok true
  | k :: rest => do
    let b ← check k
    if b then lodashEvery rest check else .ok false

/-- `validateInput(input)`: the input must be nil or a plain object, and every
schema key's input value must validate. -/
def RecordSchema.validateInput (fenv : FEnv) (rs : RecordSchema) (input : JSValue) :
    Except RecErr Bool :=
  if ¬ input.isNil && ¬ input.isPlainObject then .error .inputNotPlainObject
  else lodashEvery (jsKeys rs.schema) (fun key => validateInputValue fenv key rs.schema input)

/-- The defaults object of `applyDefaults`: the schema values owning a
`default` key, mapped to that default (`_.has` is nil-safe, so nil and
function schema values contribute nothing).  The `__schemaDefaults` caching in
the source has no semantic effect. -/
def schemaDefaults (schema : JSObj) : JSObj :=
  schema.filterMap (fun kv =>
    match kv.2 with
    | .obj o => (jsGet o "default").map (fun d => (kv.1, d))
    | _ => none)

/-- `applyDefaults(input)`: `_.defaults(input, schemaDefaults)`. -/
def RecordSchema.applyDefaults (rs : RecordSchema) (input : JSObj) : JSObj :=
  jsDefaults input (schemaDefaults rs.schema)

/-- A `RecordAccessor`: the getter returns the captured value, the setter
always throws, the property may or may not be enumerable and is never
configurable. -/
structure RecordAccessor where
  value : JSValue
  enumerable : Bool
  configurable : Bool

/-- Build a `RecordAccessor` for a value (the source's `isEnumerable` parameter
defaults to `true`; `getAccessorsForInput` always uses that default). -/
def RecordAccessor.make (value : JSValue) (isEnumerable : Bool) : RecordAccessor :=
  ⟨value, isEnumerable, false⟩

/-- `getAccessorsForInput(input)`: one accessor per input key present on the
schema, capturing the input value, with the default (true) enumerability. -/
def RecordSchema.getAccessorsForInput (rs : RecordSchema) (input : JSObj) :
    List (String × RecordAccessor) :=
  (jsPick input (jsKeys rs.schema)).map (fun kv => (kv.1, RecordAccessor.make kv.2 true))

/-! ### The Record factory (src/index.js) -/

/-- A constructed Record instance: the private backing state (the `privates`
WeakMap entry), the accessors installed by `Object.defineProperties`, and the
ordinary data properties later created by direct assignment to names that have
no accessor (empty at construction; the instance object is extensible). -/
structure RecordInstance where
  privates : JSObj
  accessors : List (String × RecordAccessor)
  dataProps : JSObj

/-- The `Record` constructor: validate the raw input, clean it
(`applyDefaults(removeInvalidInputKeys(values))`), store it as the backing
state and install one accessor per present field. -/
def recordCtor (fenv : FEnv) (schema : RecordSchema) (values : JSValue) :
    Except RecErr RecordInstance := do
  let _ ← schema.validateInput fenv values
  let cleanInput := schema.applyDefaults (schema.removeInvalidInputKeys values)
  pure ⟨cleanInput, schema.getAccessorsForInput cleanInput, []⟩

/-- `assertValidProperty(schema, property)`: throws unless the property is a
schema field. -/
def assertValidProperty (schema : RecordSchema) (property : String) : Except RecErr Bool :=
  if ¬ schema.hasProperty property then .error (.notAField property) else .ok true

/-- `update(object, field, value)` from `index.js`: `_.set` on a shallow clone.
The `_.isObject` guard is always satisfied here because the backing state is an
object. -/
def update (object : JSObj) (field : String) (value : JSValue) : JSObj :=
  jsSet object field value

/-- `unsetField(object, field)` from `index.js`: `_.unset` on a shallow clone. -/
def unsetField (object : JSObj) (field : String) : JSObj :=
  jsUnset object field

/-- `Record.prototype.set`: check the property is a schema field, then build a
new instance (through `getRecordConstructor`, which resolves to the same
constructor) from the backing state updated at the property. -/
def Record.set (fenv : FEnv) (schema : RecordSchema) (r : RecordInstance) (property : String)
    (newValue : JSValue) : Except RecErr RecordInstance := do
  let _ ← assertValidProperty schema property
  recordCtor fenv schema (.obj (update r.privates property newValue))

/-- `Record.prototype.remove`: check the property is a schema field, then build
a new instance from the backing state with the property removed. -/
def Record.remove (fenv : FEnv) (schema : RecordSchema) (r : RecordInstance) (property : String) :
    Except RecErr RecordInstance := do
  let _ ← assertValidProperty schema property
  recordCtor fenv schema (.obj (unsetField r.privates property))

/-- Find the accessor installed at a property, if any. -/
def accFind (accessors : List (String × RecordAccessor)) (k : String) : Option RecordAccessor :=
  match accessors with
  | [] => none
  | (k', a) :: rest => if k' = k then some a else accFind rest k

/-- Reading a property of an instance: an installed accessor's getter returns
the captured value; otherwise the read falls through to the instance's own data
properties (absent reads give `undefined`). -/
def RecordInstance.read (r : RecordInstance) (k : String) : JSValue :=
  match accFind r.accessors k with
  | some a => a.value
  | none => jsIndex r.dataProps k

/-- `Object.keys` of an instance: the enumerable accessor properties in
definition order, then any data properties added later by assignment. -/
def RecordInstance.enumKeys (r : RecordInstance) : List String :=
  ((r.accessors.filter (fun kv => kv.2.enumerable)).map Prod.fst) ++ jsKeys r.dataProps

/-- Direct property assignment `r[k] = v`, per JavaScript semantics: when an
accessor is installed at `k` its setter runs — and every Record setter throws;
otherwise the assignment creates or updates an ordinary own data property on
the (extensible, unfrozen) instance. -/
def RecordInstance.assign (r : RecordInstance) (k : String) (v : JSValue) :
    Except RecErr RecordInstance :=
  match accFind r.accessors k with
  | some _ => .error .immutableWrite
  | none => .ok ⟨r.privates, r.accessors, jsSet r.dataProps k v⟩

/-! ### Basic lemmas about the object operations -/

theorem jsGet_isSome_iff_mem (o : JSObj) (k : String) :
    (jsGet o k).isSome ↔ k ∈ jsKeys o := by
  induction o with
  | nil => simp [jsGet, jsKeys]
  | cons kv rest ih =>
    obtain ⟨k', v⟩ := kv
    by_cases h : k' = k <;> simp [jsGet, jsKeys, h, ih]
    exact fun h2 => absurd h2.symm h

theorem jsGet_eq_none_of_not_mem {o : JSObj} {k : String} (h : k ∉ jsKeys o) :
    jsGet o k = none := by
  cases hg : jsGet o k with
  | none => rfl
  | some v => exact absurd ((jsGet_isSome_iff_mem o k).mp (by simp [hg])) h

theorem jsHas_iff_mem (o : JSObj) (k : String) : jsHas o k = true ↔ k ∈ jsKeys o := by
  simpa [jsHas] using jsGet_isSome_iff_mem o k

theorem jsGet_append (a b : JSObj) (k : String) :
    jsGet (a ++ b) k = match jsGet a k with
      | some v => some v
      | none => jsGet b k := by
  induction a with
  | nil => simp [jsGet]
  | cons kv rest ih =>
    obtain ⟨k', v⟩ := kv
    by_cases h : k' = k <;> simp [jsGet, h, ih]

theorem jsGet_map_key (g : String → JSValue → JSValue) (o : JSObj) (k : String) :
    jsGet (o.map (fun kv => (kv.1, g kv.1 kv.2))) k = (jsGet o k).map (g k) := by
  induction o with
  | nil => simp [jsGet]
  | cons kv rest ih =>
    obtain ⟨k', v⟩ := kv
    by_cases h : k' = k <;> simp [jsGet, h, ih]

theorem jsGet_filter_key (p : String → Bool) (o : JSObj) (k : String) :
    jsGet (o.filter (fun kv => p kv.1)) k = if p k then jsGet o k else none := by
  induction o with
  | nil => simp [jsGet]
  | cons kv rest ih =>
    obtain ⟨k', v⟩ := kv
    by_cases h : k' = k
    · subst h
      by_cases hp : p k' <;> simp [jsGet, hp, ih]
    · by_cases hp : p k' <;> simp [jsGet, h, hp, ih]

theorem jsPick_cons_none {o : JSObj} {k' : String} (rest : List String)
    (hg : jsGet o k' = none) : jsPick o (k' :: rest) = jsPick o rest := by
  simp [jsPick, hg]

theorem jsPick_cons_some {o : JSObj} {k' : String} {v : JSValue} (rest : List String)
    (hg : jsGet o k' = some v) : jsPick o (k' :: rest) = (k', v) :: jsPick o rest := by
  simp [jsPick, hg]

theorem jsGet_pick (o : JSObj) (ks : List String) (k : String) :
    jsGet (jsPick o ks) k = if k ∈ ks then jsGet o k else none := by
  induction ks with
  | nil => simp [jsPick, jsGet]
  | cons k' rest ih =>
    cases hg : jsGet o k' with
    | none =>
      rw [jsPick_cons_none rest hg, ih]
      by_cases hk : k = k'
      · subst hk
        simp [hg]
      · simp [List.mem_cons, hk]
    | some v =>
      rw [jsPick_cons_some rest hg]
      by_cases hk : k = k'
      · subst hk
        simp [jsGet, hg]
      · rw [jsGet, if_neg (fun h2 => hk h2.symm), ih]
        simp [List.mem_cons, hk]

theorem jsKeys_pick (o : JSObj) (ks : List String) :
    jsKeys (jsPick o ks) = ks.filter (fun k => jsHas o k) := by
  induction ks with
  | nil => rfl
  | cons k' rest ih =>
    cases hg : jsGet o k' with
    | none =>
      rw [jsPick_cons_none rest hg, ih, List.filter_cons]
      simp [jsHas, hg]
    | some v =>
      have hh : jsHas o k' = true := by simp [jsHas, hg]
      rw [jsPick_cons_some rest hg, List.filter_cons]
      simp only [hh, if_true]
      show k' :: jsKeys (jsPick o rest) = k' :: rest.filter (fun k => jsHas o k)
      rw [ih]

theorem jsGet_defaults (o src : JSObj) (k : String) :
    jsGet (jsDefaults o src) k =
      match jsGet o k with
      | some v => some (if v.isUndef then (jsGet src k).getD v else v)
      | none => jsGet src k := by
  unfold jsDefaults
  rw [jsGet_append]
  have hmap : (o.map (fun kv =>
      if kv.2.isUndef then
        match jsGet src kv.1 with
        | some d => (kv.1, d)
        | none => kv
      else kv))
    = o.map (fun kv => (kv.1, if kv.2.isUndef then (jsGet src kv.1).getD kv.2 else kv.2)) := by
    apply List.map_congr_left
    intro kv _
    obtain ⟨k', v⟩ := kv
    by_cases hv : v.isUndef <;> cases hg : jsGet src k' <;> simp [hv, hg]
  rw [hmap, jsGet_map_key (fun k v => if v.isUndef then (jsGet src k).getD v else v)]
  rw [jsGet_filter_key (fun k => !jsHas o k)]
  cases hg : jsGet o k with
  | some v => simp [jsHas, hg]
  | none => simp [jsHas, hg]

theorem jsKeys_map_key (g : String → JSValue → JSValue) (o : JSObj) :
    jsKeys (o.map (fun kv => (kv.1, g kv.1 kv.2))) = jsKeys o := by
  simp [jsKeys]

theorem jsKeys_defaults (o src : JSObj) :
    jsKeys (jsDefaults o src) =
      jsKeys o ++ jsKeys (src.filter (fun kv => !jsHas o kv.1)) := by
  unfold jsDefaults
  simp only [jsKeys, List.map_append]
  congr 1
  rw [List.map_map]
  apply List.map_congr_left
  intro kv _
  obtain ⟨k', v⟩ := kv
  by_cases hv : v.isUndef <;> cases hg : jsGet src k' <;> simp [hv, hg]

theorem mem_keys_schemaDefaults (s : JSObj) (k : String) :
    k ∈ jsKeys (schemaDefaults s) → k ∈ jsKeys s := by
  induction s with
  | nil => intro h; simp [schemaDefaults, jsKeys] at h
  | cons kv rest ih =>
    intro h
    obtain ⟨k', v⟩ := kv
    cases v with
    | obj o =>
      cases hd : jsGet o "default" with
      | none =>
        have hstep : schemaDefaults ((k', JSValue.obj o) :: rest) = schemaDefaults rest := by
          simp [schemaDefaults, hd]
        rw [hstep] at h
        exact List.mem_cons_of_mem _ (ih h)
      | some d =>
        have hstep : schemaDefaults ((k', JSValue.obj o) :: rest)
            = (k', d) :: schemaDefaults rest := by
          simp [schemaDefaults, hd]
        rw [hstep] at h
        simp only [jsKeys, List.map_cons] at h
        rcases List.mem_cons.mp h with h | h
        · simp [jsKeys, h]
        · exact List.mem_cons_of_mem _ (ih h)
    | undef =>
      exact List.mem_cons_of_mem _ (ih (by simpa [schemaDefaults] using h))
    | jsNull =>
      exact List.mem_cons_of_mem _ (ih (by simpa [schemaDefaults] using h))
    | bool b =>
      exact List.mem_cons_of_mem _ (ih (by simpa [schemaDefaults] using h))
    | num n =>
      exact List.mem_cons_of_mem _ (ih (by simpa [schemaDefaults] using h))
    | str s2 =>
      exact List.mem_cons_of_mem _ (ih (by simpa [schemaDefaults] using h))
    | func a i =>
      exact List.mem_cons_of_mem _ (ih (by simpa [schemaDefaults] using h))

theorem jsGet_schemaDefaults {s : JSObj} (hnd : (jsKeys s).Nodup) (k : String) :
    jsGet (schemaDefaults s) k =
      match jsGet s k with
      | some (.obj o) => jsGet o "default"
      | _ => none := by
  induction s with
  | nil => rfl
  | cons kv rest ih =>
    obtain ⟨k', v⟩ := kv
    rw [jsKeys] at hnd
    simp only [List.map_cons, List.nodup_cons] at hnd
    obtain ⟨hk', hrest⟩ := hnd
    by_cases hk : k' = k
    · subst hk
      have habs : jsGet (schemaDefaults rest) k' = none := by
        apply jsGet_eq_none_of_not_mem
        intro hmem
        exact hk' (mem_keys_schemaDefaults _ _ hmem)
      cases v with
      | obj o =>
        cases hd : jsGet o "default" with
        | none =>
          have hstep : schemaDefaults ((k', JSValue.obj o) :: rest) = schemaDefaults rest := by
            simp [schemaDefaults, hd]
          rw [hstep, habs]
          simp [jsGet, hd]
        | some d =>
          have hstep : schemaDefaults ((k', JSValue.obj o) :: rest)
              = (k', d) :: schemaDefaults rest := by
            simp [schemaDefaults, hd]
          rw [hstep]
          simp [jsGet, hd]
      | undef => simpa [schemaDefaults, jsGet] using habs
      | jsNull => simpa [schemaDefaults, jsGet] using habs
      | bool b => simpa [schemaDefaults, jsGet] using habs
      | num n => simpa [schemaDefaults, jsGet] using habs
      | str s2 => simpa [schemaDefaults, jsGet] using habs
      | func a i => simpa [schemaDefaults, jsGet] using habs
    · have hrec := ih hrest
      cases v with
      | obj o =>
        cases hd : jsGet o "default" with
        | none =>
          have hstep : schemaDefaults ((k', JSValue.obj o) :: rest) = schemaDefaults rest := by
            simp [schemaDefaults, hd]
          rw [hstep, hrec]
          simp [jsGet, hk]
        | some d =>
          have hstep : schemaDefaults ((k', JSValue.obj o) :: rest)
              = (k', d) :: schemaDefaults rest := by
            simp [schemaDefaults, hd]
          rw [hstep, jsGet, if_neg hk, hrec]
          simp [jsGet, hk]
      | undef => rw [show schemaDefaults ((k', JSValue.undef) :: rest)
            = schemaDefaults rest from rfl, hrec]; simp [jsGet, hk]
      | jsNull => rw [show schemaDefaults ((k', JSValue.jsNull) :: rest)
            = schemaDefaults rest from rfl, hrec]; simp [jsGet, hk]
      | bool b => rw [show schemaDefaults ((k', JSValue.bool b) :: rest)
            = schemaDefaults rest from rfl, hrec]; simp [jsGet, hk]
      | num n => rw [show schemaDefaults ((k', JSValue.num n) :: rest)
            = schemaDefaults rest from rfl, hrec]; simp [jsGet, hk]
      | str s2 => rw [show schemaDefaults ((k', JSValue.str s2) :: rest)
            = schemaDefaults rest from rfl, hrec]; simp [jsGet, hk]
      | func a i => rw [show schemaDefaults ((k', JSValue.func a i) :: rest)
            = schemaDefaults rest from rfl, hrec]; simp [jsGet, hk]

/-! ### Lemmas about input validation and the constructor -/

theorem lodashEvery_ok_of_forall {keys : List String} {check : String → Except RecErr Bool}
    (h : ∀ k ∈ keys, check k = .ok true) : lodashEvery keys check = .ok true := by
  induction keys with
  | nil => rfl
  | cons k rest ih =>
    have hstep : lodashEvery (k :: rest) check
        = (do
            let b ← check k
            if b then lodashEvery rest check else .ok false) := rfl
    rw [hstep, h k (List.mem_cons_self k rest)]
    show lodashEvery rest check = .ok true
    exact ih (fun g hg => h g (List.mem_cons_of_mem k hg))

theorem lodashEvery_forall_of_ok {keys : List String} {check : String → Except RecErr Bool}
    (h : lodashEvery keys check = .ok true) : ∀ k ∈ keys, check k = .ok true := by
  induction keys with
  | nil => intro k hk; simp at hk
  | cons k rest ih =>
    have hstep : lodashEvery (k :: rest) check
        = (do
            let b ← check k
            if b then lodashEvery rest check else .ok false) := rfl
    rw [hstep] at h
    cases hc : check k with
    | error e =>
      rw [hc] at h
      simp [bind, Except.bind] at h
    | ok b =>
      rw [hc] at h
      cases b with
      | false => simp [bind, Except.bind] at h
      | true =>
        have hrest : lodashEvery rest check = .ok true := h
        intro g hg
        rcases List.mem_cons.mp hg with rfl | hg2
        · exact hc
        · exact ih hrest g hg2

theorem lodashEvery_error {keys : List String} {check : String → Except RecErr Bool}
    {f : String} {e : RecErr}
    (hnd : keys.Nodup) (hmem : f ∈ keys) (hf : check f = .error e)
    (hothers : ∀ k ∈ keys, k ≠ f → check k = .ok true) :
    lodashEvery keys check = .error e := by
  induction keys with
  | nil => simp at hmem
  | cons k rest ih =>
    obtain ⟨hknotin, hndrest⟩ := List.nodup_cons.mp hnd
    have hstep : lodashEvery (k :: rest) check
        = (do
            let b ← check k
            if b then lodashEvery rest check else .ok false) := rfl
    rcases List.mem_cons.mp hmem with rfl | hmem2
    · rw [hstep, hf]
      rfl
    · have hkne : k ≠ f := fun hkf => hknotin (hkf ▸ hmem2)
      rw [hstep, hothers k (List.mem_cons_self k rest) hkne]
      show lodashEvery rest check = .error e
      exact ih hndrest hmem2 (fun g hg hne => hothers g (List.mem_cons_of_mem k hg) hne)

theorem validateInput_obj (fenv : FEnv) (rs : RecordSchema) (i : JSObj) :
    RecordSchema.validateInput fenv rs (.obj i)
      = lodashEvery (jsKeys rs.schema)
          (fun key => validateInputValue fenv key rs.schema (.obj i)) := by
  simp [RecordSchema.validateInput, JSValue.isNil, JSValue.isPlainObject]

theorem recordCtor_of_validate_ok {fenv : FEnv} {sch : RecordSchema} {values : JSValue}
    (hv : RecordSchema.validateInput fenv sch values = .ok true) :
    recordCtor fenv sch values
      = .ok ⟨sch.applyDefaults (sch.removeInvalidInputKeys values),
          sch.getAccessorsForInput (sch.applyDefaults (sch.removeInvalidInputKeys values)),
          []⟩ := by
  simp [recordCtor, hv, bind, Except.bind, pure, Except.pure]

theorem recordCtor_of_validate_error {fenv : FEnv} {sch : RecordSchema} {values : JSValue}
    {e : RecErr} (hv : RecordSchema.validateInput fenv sch values = .error e) :
    recordCtor fenv sch values = .error e := by
  simp [recordCtor, hv, bind, Except.bind]

theorem isFieldRequired_obj {s : JSObj} {k : String} {o_r : JSObj}
    (hrule : jsGet s k = some (.obj o_r)) :
    isFieldRequired k s = .ok (truthy (jsIndex o_r "required") && !jsHas o_r "default") := by
  have hidx : jsIndex s k = .obj o_r := by simp [jsIndex, hrule]
  rw [isFieldRequired, hidx]
  by_cases hr : truthy (jsIndex o_r "required") <;>
    simp [jsDot, jsInOp, hr, pure, Except.pure]

theorem validateInputValue_absent {fenv : FEnv} {k : String} {s : JSObj} {i : JSObj}
    (habs : jsHas i k = false) :
    validateInputValue fenv k s (.obj i)
      = (do
          let req ← isFieldRequired k s
          if req then .error (.missingField k) else pure true) := by
  rw [validateInputValue]
  simp [habs]

theorem validateInputValue_present {fenv : FEnv} {k : String} {s : JSObj} {i : JSObj}
    (hpres : jsHas i k = true) :
    validateInputValue fenv k s (.obj i)
      = (match jsInOp "type" (jsIndex s k) with
         | none => .error .typeError
         | some hasType =>
           if ¬ hasType then pure true
           else
             match jsDot (jsIndex s k) "type" with
             | none => .error .typeError
             | some typeValue => do
               let ok ← isValidForType fenv typeValue (jsIndex i k)
               if ¬ ok then .error (.invalidFieldValue k) else pure true) := by
  rw [validateInputValue]
  simp [hpres]

theorem validateInputValue_obj_present_type {fenv : FEnv} {k : String} {s i o_r : JSObj}
    (hrule : jsGet s k = some (.obj o_r)) (hpres : jsHas i k = true)
    (htype : jsHas o_r "type" = true) :
    validateInputValue fenv k s (.obj i)
      = (do
          let ok ← isValidForType fenv (jsIndex o_r "type") (jsIndex i k)
          if ¬ ok then .error (.invalidFieldValue k) else pure true) := by
  have hidx : jsIndex s k = .obj o_r := by simp [jsIndex, hrule]
  rw [validateInputValue_present hpres, hidx]
  simp [jsInOp, jsDot, htype]

theorem validateInputValue_obj_present_notype {fenv : FEnv} {k : String} {s i o_r : JSObj}
    (hrule : jsGet s k = some (.obj o_r)) (hpres : jsHas i k = true)
    (htype : jsHas o_r "type" = false) :
    validateInputValue fenv k s (.obj i) = .ok true := by
  have hidx : jsIndex s k = .obj o_r := by simp [jsIndex, hrule]
  rw [validateInputValue_present hpres, hidx]
  simp [jsInOp, htype, pure, Except.pure]

theorem validateInputValue_func {fenv : FEnv} {k : String} {s i : JSObj} {a fid : Nat}
    (hrule : jsGet s k = some (.func a fid)) :
    validateInputValue fenv k s (.obj i) = .ok true := by
  have hidx : jsIndex s k = .func a fid := by simp [jsIndex, hrule]
  by_cases hpres : jsHas i k
  · rw [validateInputValue_present hpres, hidx]
    simp [jsInOp, pure, Except.pure]
  · rw [validateInputValue_absent (by simpa using hpres)]
    have hreq : isFieldRequired k s = .ok false := by
      rw [isFieldRequired, hidx]
      simp [jsDot, truthy, pure, Except.pure]
    rw [hreq]
    simp [bind, Except.bind, pure, Except.pure]

theorem validateInputValue_nil {fenv : FEnv} {k : String} {s i : JSObj} {v : JSValue}
    (hrule : jsGet s k = some v) (hnil : v.isNil = true) :
    validateInputValue fenv k s (.obj i) = .error .typeError := by
  have hidx : jsIndex s k = v := by simp [jsIndex, hrule]
  by_cases hpres : jsHas i k
  · rw [validateInputValue_present hpres, hidx]
    cases v <;> simp_all [JSValue.isNil, jsInOp]
  · rw [validateInputValue_absent (by simpa using hpres)]
    have hreq : isFieldRequired k s = .error .typeError := by
      rw [isFieldRequired, hidx]
      cases v <;> simp_all [JSValue.isNil, jsDot]
    rw [hreq]
    rfl

theorem validateSchemaValues_forall {fenv : FEnv} {l : List (String × JSValue)}
    (h : validateSchemaValues fenv l = .ok true) :
    ∀ kv ∈ l, isRecordSchemaValue fenv kv.2 = .ok true := by
  induction l with
  | nil => intro kv hkv; simp at hkv
  | cons kv0 rest ih =>
    have hstep : validateSchemaValues fenv (kv0 :: rest)
        = (do
            let b ← isRecordSchemaValue fenv kv0.2
            if b then validateSchemaValues fenv rest else .ok false) := rfl
    rw [hstep] at h
    cases hc : isRecordSchemaValue fenv kv0.2 with
    | error e => rw [hc] at h; simp [bind, Except.bind] at h
    | ok b =>
      rw [hc] at h
      cases b with
      | false => simp [bind, Except.bind] at h
      | true =>
        have hrest : validateSchemaValues fenv rest = .ok true := h
        intro kv hkv
        rcases List.mem_cons.mp hkv with rfl | hkv2
        · exact hc
        · exact ih hrest kv hkv2

theorem recordCtor_of_validate_okb {fenv : FEnv} {sch : RecordSchema} {values : JSValue}
    {b : Bool} (hv : RecordSchema.validateInput fenv sch values = .ok b) :
    recordCtor fenv sch values
      = .ok ⟨sch.applyDefaults (sch.removeInvalidInputKeys values),
          sch.getAccessorsForInput (sch.applyDefaults (sch.removeInvalidInputKeys values)),
          []⟩ := by
  simp [recordCtor, hv, bind, Except.bind, pure, Except.pure]

theorem recordCtor_ok_inv {fenv : FEnv} {sch : RecordSchema} {values : JSValue}
    {r : RecordInstance} (h : recordCtor fenv sch values = .ok r) :
    r = ⟨sch.applyDefaults (sch.removeInvalidInputKeys values),
         sch.getAccessorsForInput (sch.applyDefaults (sch.removeInvalidInputKeys values)),
         []⟩ := by
  cases hv : RecordSchema.validateInput fenv sch values with
  | error e =>
    rw [recordCtor_of_validate_error hv] at h
    exact Except.noConfusion h
  | ok b =>
    rw [recordCtor_of_validate_okb hv] at h
    exact (Except.ok.inj h).symm

theorem ctor_enumKeys_subset {fenv : FEnv} {sch : RecordSchema} {values : JSValue}
    {r : RecordInstance} (h : recordCtor fenv sch values = .ok r) :
    ∀ k ∈ r.enumKeys, k ∈ jsKeys sch.schema := by
  rw [recordCtor_ok_inv h]
  intro k hk
  simp only [RecordInstance.enumKeys, RecordSchema.getAccessorsForInput, jsKeys,
    List.map_nil, List.append_nil] at hk
  obtain ⟨kv, hkv, hfst⟩ := List.mem_map.mp hk
  have hkv2 := List.mem_of_mem_filter hkv
  obtain ⟨kv0, hkv0, hkv0eq⟩ := List.mem_map.mp hkv2
  have hmem0 : kv0.1 ∈ jsKeys (jsPick
      (sch.applyDefaults (sch.removeInvalidInputKeys values)) (jsKeys sch.schema)) :=
    List.mem_map_of_mem Prod.fst hkv0
  rw [jsKeys_pick] at hmem0
  have hks := List.mem_of_mem_filter hmem0
  have : k = kv0.1 := by rw [← hfst, ← hkv0eq]
  rw [this]
  exact hks

theorem validateInputValue_input_congr {fenv : FEnv} {k : String} {s : JSObj} {i j : JSObj}
    (hh : jsGet i k = jsGet j k) :
    validateInputValue fenv k s (.obj i) = validateInputValue fenv k s (.obj j) := by
  by_cases hp : jsHas i k
  · have hpj : jsHas j k = true := by rw [jsHas, ← hh]; exact hp
    rw [validateInputValue_present hp, validateInputValue_present hpj]
    rw [show jsIndex i k = jsIndex j k from by rw [jsIndex, jsIndex, hh]]
  · have hpf : jsHas i k = false := Bool.eq_false_iff.mpr hp
    have hpj : jsHas j k = false := by rw [jsHas, ← hh]; exact hpf
    rw [validateInputValue_absent hpf, validateInputValue_absent hpj]

theorem lodashEvery_congr {keys : List String} {c1 c2 : String → Except RecErr Bool}
    (h : ∀ k ∈ keys, c1 k = c2 k) : lodashEvery keys c1 = lodashEvery keys c2 := by
  induction keys with
  | nil => rfl
  | cons k rest ih =>
    have hstep1 : lodashEvery (k :: rest) c1
        = (do
            let b ← c1 k
            if b then lodashEvery rest c1 else .ok false) := rfl
    have hstep2 : lodashEvery (k :: rest) c2
        = (do
            let b ← c2 k
            if b then lodashEvery rest c2 else .ok false) := rfl
    have hr : lodashEvery rest c1 = lodashEvery rest c2 :=
      ih (fun g hg => h g (List.mem_cons_of_mem k hg))
    rw [hstep1, hstep2, h k (List.mem_cons_self k rest), hr]

theorem jsPick_congr {i j : JSObj} {ks : List String}
    (h : ∀ k ∈ ks, jsGet i k = jsGet j k) : jsPick i ks = jsPick j ks := by
  induction ks with
  | nil => rfl
  | cons k rest ih =>
    have htail : jsPick i rest = jsPick j rest :=
      ih (fun g hg => h g (List.mem_cons_of_mem k hg))
    cases hg : jsGet j k with
    | none =>
      rw [jsPick_cons_none rest (by rw [h k (List.mem_cons_self k rest)]; exact hg),
        jsPick_cons_none rest hg, htail]
    | some v =>
      rw [jsPick_cons_some rest (by rw [h k (List.mem_cons_self k rest)]; exact hg),
        jsPick_cons_some rest hg, htail]

theorem accFind_map (o : JSObj) (k : String) :
    accFind (o.map (fun kv => (kv.1, RecordAccessor.make kv.2 true))) k
      = (jsGet o k).map (fun v => RecordAccessor.make v true) := by
  induction o with
  | nil => rfl
  | cons kv rest ih =>
    obtain ⟨k', v⟩ := kv
    by_cases h : k' = k <;> simp [accFind, jsGet, h, ih]

/-! ### Nodup and update lemmas -/

theorem isUndef_iff (v : JSValue) : v.isUndef = true ↔ v = .undef := by
  cases v <;> simp [JSValue.isUndef]

theorem jsGet_mem {o : JSObj} {k : String} {v : JSValue} (h : jsGet o k = some v) :
    (k, v) ∈ o := by
  induction o with
  | nil => simp [jsGet] at h
  | cons kv rest ih =>
    obtain ⟨k', w⟩ := kv
    by_cases hk : k' = k
    · subst hk
      rw [jsGet, if_pos rfl] at h
      rw [Option.some.injEq] at h
      subst h
      exact List.mem_cons_self _ _
    · rw [jsGet, if_neg hk] at h
      exact List.mem_cons_of_mem _ (ih h)

theorem jsPick_nil (ks : List String) : jsPick [] ks = [] := by
  induction ks with
  | nil => rfl
  | cons k rest ih =>
    have h0 : jsGet ([] : JSObj) k = none := rfl
    rw [jsPick_cons_none rest h0, ih]

theorem jsKeys_schemaDefaults_sublist (s : JSObj) :
    List.Sublist (jsKeys (schemaDefaults s)) (jsKeys s) := by
  induction s with
  | nil => simp [schemaDefaults, jsKeys]
  | cons kv rest ih =>
    obtain ⟨k', v⟩ := kv
    have hcons : jsKeys ((k', v) :: rest) = k' :: jsKeys rest := rfl
    rw [hcons]
    cases v with
    | obj o =>
      cases hd : jsGet o "default" with
      | none =>
        rw [show schemaDefaults ((k', JSValue.obj o) :: rest) = schemaDefaults rest from by
          simp [schemaDefaults, hd]]
        exact ih.cons k'
      | some d =>
        rw [show schemaDefaults ((k', JSValue.obj o) :: rest)
            = (k', d) :: schemaDefaults rest from by simp [schemaDefaults, hd]]
        exact ih.cons₂ k'
    | undef => exact ih.cons k'
    | jsNull => exact ih.cons k'
    | bool b => exact ih.cons k'
    | num n => exact ih.cons k'
    | str s2 => exact ih.cons k'
    | func a i => exact ih.cons k'

theorem jsKeys_filter_sublist (o : JSObj) (p : String × JSValue → Bool) :
    List.Sublist (jsKeys (o.filter p)) (jsKeys o) :=
  (List.filter_sublist o).map Prod.fst

theorem nodup_keys_pick {o : JSObj} {ks : List String} (h : ks.Nodup) :
    (jsKeys (jsPick o ks)).Nodup := by
  rw [jsKeys_pick]
  exact h.filter _

theorem nodup_keys_defaults {o src : JSObj}
    (ho : (jsKeys o).Nodup) (hsrc : (jsKeys src).Nodup) :
    (jsKeys (jsDefaults o src)).Nodup := by
  rw [jsKeys_defaults]
  apply List.Nodup.append ho ((jsKeys_filter_sublist src _).nodup hsrc)
  intro k hk1 hk2
  obtain ⟨kv, hkv, hfst⟩ := List.mem_map.mp hk2
  have hfilt := List.of_mem_filter hkv
  rw [hfst] at hfilt
  rw [← (jsHas_iff_mem o k)] at hk1
  simp [hk1] at hfilt

theorem map_set_id {o : JSObj} {k : String} {v : JSValue}
    (h : ∀ kv ∈ o, kv.1 ≠ k) :
    o.map (fun kv => if kv.1 = k then (k, v) else kv) = o := by
  induction o with
  | nil => rfl
  | cons kv rest ih =>
    rw [List.map_cons, if_neg (h kv (List.mem_cons_self kv rest)),
      ih (fun kv2 h2 => h kv2 (List.mem_cons_of_mem kv h2))]

theorem jsSet_self {o : JSObj} {k : String} {v : JSValue}
    (hnd : (jsKeys o).Nodup) (hg : jsGet o k = some v) : jsSet o k v = o := by
  induction o with
  | nil => simp [jsGet] at hg
  | cons kv rest ih =>
    obtain ⟨k', w⟩ := kv
    have hnd2 : (k' :: jsKeys rest).Nodup := hnd
    obtain ⟨hk', hndr⟩ := List.nodup_cons.mp hnd2
    have hhas : jsHas ((k', w) :: rest) k = true := by simp [jsHas, hg]
    rw [jsSet, if_pos hhas, List.map_cons]
    by_cases hk : k' = k
    · subst hk
      have hv : w = v := by
        rw [jsGet, if_pos rfl] at hg
        exact Option.some.inj hg
      rw [show ((if (k', w).1 = k' then (k', v) else (k', w)) : String × JSValue)
          = (k', v) from by simp]
      rw [← hv]
      have hrest : ∀ kv ∈ rest, kv.1 ≠ k' := by
        intro kv hkv hfst
        exact hk' (hfst ▸ List.mem_map_of_mem Prod.fst hkv)
      rw [map_set_id hrest]
    · rw [jsGet, if_neg hk] at hg
      have hih := ih hndr hg
      rw [jsSet, if_pos (by simp [jsHas, hg])] at hih
      rw [show ((if (k', w).1 = k then (k, v) else (k', w)) : String × JSValue)
          = (k', w) from by simp [hk]]
      rw [hih]

/-! ### Inversion lemmas for validation, and the cleaned-input characterization -/

theorem validateInputValue_absent_ok {fenv : FEnv} {k : String} {s i : JSObj}
    (habs : jsHas i k = false) (hreq : isFieldRequired k s = .ok false) :
    validateInputValue fenv k s (.obj i) = .ok true := by
  rw [validateInputValue_absent habs, hreq]
  rfl

theorem validateInputValue_absent_inv {fenv : FEnv} {k : String} {s i : JSObj}
    (habs : jsHas i k = false)
    (hok : validateInputValue fenv k s (.obj i) = .ok true) :
    isFieldRequired k s = .ok false := by
  rw [validateInputValue_absent habs] at hok
  cases hr : isFieldRequired k s with
  | error e => rw [hr] at hok; exact absurd hok (by simp [bind, Except.bind])
  | ok b =>
    rw [hr] at hok
    cases b with
    | false => rfl
    | true => exact absurd hok (by simp [bind, Except.bind])

theorem validateInputValue_present_type_inv {fenv : FEnv} {k : String} {s i o_r : JSObj}
    (hrule : jsGet s k = some (.obj o_r)) (hpres : jsHas i k = true)
    (htype : jsHas o_r "type" = true)
    (hok : validateInputValue fenv k s (.obj i) = .ok true) :
    isValidForType fenv (jsIndex o_r "type") (jsIndex i k) = .ok true := by
  rw [validateInputValue_obj_present_type hrule hpres htype] at hok
  cases hv : isValidForType fenv (jsIndex o_r "type") (jsIndex i k) with
  | error e => rw [hv] at hok; exact absurd hok (by simp [bind, Except.bind])
  | ok b =>
    rw [hv] at hok
    cases b with
    | false => exact absurd hok (by simp [bind, Except.bind])
    | true => rfl

theorem isRecordSchemaValue_type_default_inv {fenv : FEnv} {o_r : JSObj}
    (h : isRecordSchemaValue fenv (.obj o_r) = .ok true)
    (ht : jsHas o_r "type" = true) (hd : jsHas o_r "default" = true) :
    isValidForType fenv (jsIndex o_r "type") (jsIndex o_r "default") = .ok true := by
  have hne : o_r ≠ [] := by
    intro h0
    rw [h0] at ht
    simp [jsHas, jsGet] at ht
  have hempty : isEmptyObject (.obj o_r) = false := by
    simp [isEmptyObject, JSValue.isNil, List.isEmpty_iff, hne]
  rw [isRecordSchemaValue] at h
  simp only [hempty, Bool.false_eq_true, if_false] at h
  by_cases hci : doesSchemaValueContainInvalidKeys o_r = true
  · simp only [hci, if_true] at h
    exact absurd h (by simp)
  · have hcf : doesSchemaValueContainInvalidKeys o_r = false := Bool.eq_false_iff.mpr hci
    simp only [hcf, Bool.false_eq_true, if_false] at h
    cases hgt : jsGet o_r "type" with
    | none => rw [jsHas, hgt] at ht; simp at ht
    | some typeValue =>
      simp only [hgt] at h
      by_cases hts : (isTypeString typeValue || isValidatorFunction typeValue) = true
      · simp only [hts, if_true] at h
        simp only [ht, hd, Bool.and_self, not_true, if_false] at h
        cases hgr : jsGet o_r "required" with
        | none =>
          simp only [hgr, bind, Except.bind, pure, Except.pure] at h
          cases hift : isValidForType fenv (jsIndex o_r "type") (jsIndex o_r "default") with
          | error e =>
            rw [hift] at h
            exact absurd h (by simp)
          | ok b =>
            rw [hift] at h
            cases b with
            | false => exact absurd h (by simp)
            | true => rfl
        | some requiredValue =>
          simp only [hgr] at h
          cases requiredValue with
          | bool b =>
            simp only [bind, Except.bind, pure, Except.pure] at h
            cases hift : isValidForType fenv (jsIndex o_r "type") (jsIndex o_r "default") with
            | error e =>
              rw [hift] at h
              exact absurd h (by simp)
            | ok c =>
              rw [hift] at h
              cases c with
              | false => exact absurd h (by simp)
              | true => rfl
          | undef => exact absurd h (by simp [bind, Except.bind, pure, Except.pure])
          | jsNull => exact absurd h (by simp [bind, Except.bind, pure, Except.pure])
          | num n => exact absurd h (by simp [bind, Except.bind, pure, Except.pure])
          | str s2 => exact absurd h (by simp [bind, Except.bind, pure, Except.pure])
          | func a fid => exact absurd h (by simp [bind, Except.bind, pure, Except.pure])
          | obj o2 => exact absurd h (by simp [bind, Except.bind, pure, Except.pure])
      · have htf : (isTypeString typeValue || isValidatorFunction typeValue) = false :=
          Bool.eq_false_iff.mpr hts
        simp only [htf, Bool.false_eq_true, if_false] at h
        exact absurd h (by simp [bind, Except.bind, pure, Except.pure])

theorem isRecordSchemaValue_prim_error {fenv : FEnv} {v : JSValue}
    (h1 : v.isNil = false) (h2 : v.isPlainObject = false)
    (h3 : match v with | .func _ _ => False | _ => True) :
    ∃ e, isRecordSchemaValue fenv v = .error e := by
  cases v with
  | undef => simp [JSValue.isNil] at h1
  | jsNull => simp [JSValue.isNil] at h1
  | obj o => simp [JSValue.isPlainObject] at h2
  | func a fid => exact absurd h3 (by simp)
  | bool b => exact ⟨.typeError, rfl⟩
  | num n => exact ⟨.typeError, rfl⟩
  | str s2 =>
    by_cases hs : s2 = ""
    · subst hs
      exact ⟨.typeError, rfl⟩
    · refine ⟨.schemaValueInvalidKey, ?_⟩
      simp [isRecordSchemaValue, isEmptyObject, JSValue.isNil, hs]

theorem jsGet_clean_of_not_mem {s i : JSObj} {k : String} (hk : k ∉ jsKeys s) :
    jsGet (jsDefaults (jsPick i (jsKeys s)) (schemaDefaults s)) k = none := by
  apply jsGet_eq_none_of_not_mem
  intro hmem
  rw [jsKeys_defaults] at hmem
  rcases List.mem_append.mp hmem with hmem | hmem
  · rw [jsKeys_pick] at hmem
    exact hk (List.mem_of_mem_filter hmem)
  · have := (jsKeys_filter_sublist (schemaDefaults s) _).subset hmem
    exact hk (mem_keys_schemaDefaults _ _ this)

theorem jsGet_clean_mem {s i : JSObj} {k : String} (hk : k ∈ jsKeys s) :
    jsGet (jsDefaults (jsPick i (jsKeys s)) (schemaDefaults s)) k
      = (match jsGet i k with
        | some v => some (if v.isUndef then (jsGet (schemaDefaults s) k).getD v else v)
        | none => jsGet (schemaDefaults s) k) := by
  rw [jsGet_defaults, jsGet_pick, if_pos hk]

theorem clean_undef_inv {s i : JSObj} {k : String}
    (h : jsGet (jsDefaults (jsPick i (jsKeys s)) (schemaDefaults s)) k = some .undef) :
    jsGet (schemaDefaults s) k = none ∨ jsGet (schemaDefaults s) k = some .undef := by
  by_cases hk : k ∈ jsKeys s
  · rw [jsGet_clean_mem hk] at h
    cases hg : jsGet i k with
    | none =>
      simp only [hg] at h
      exact Or.inr h
    | some v =>
      simp only [hg] at h
      by_cases hu : v.isUndef
      · rw [if_pos hu] at h
        cases hd : jsGet (schemaDefaults s) k with
        | none => exact Or.inl rfl
        | some d =>
          rw [hd, Option.getD_some] at h
          exact Or.inr h
      · rw [if_neg hu] at h
        rw [Option.some.inj h] at hu
        simp [JSValue.isUndef] at hu
  · left
    apply jsGet_eq_none_of_not_mem
    intro hmem
    exact hk (mem_keys_schemaDefaults _ _ hmem)

theorem clean_none_inv {s i : JSObj} {k : String}
    (h : jsGet (jsDefaults (jsPick i (jsKeys s)) (schemaDefaults s)) k = none) :
    jsGet (schemaDefaults s) k = none := by
  by_cases hk : k ∈ jsKeys s
  · rw [jsGet_clean_mem hk] at h
    cases hg : jsGet i k with
    | none => simp only [hg] at h; exact h
    | some v =>
      simp only [hg] at h
      exact absurd h (by simp)
  · apply jsGet_eq_none_of_not_mem
    intro hmem
    exact hk (mem_keys_schemaDefaults _ _ hmem)

theorem jsGet_reclean (s i : JSObj) (k : String) :
    jsGet (jsDefaults
        (jsPick (jsDefaults (jsPick i (jsKeys s)) (schemaDefaults s)) (jsKeys s))
        (schemaDefaults s)) k
      = jsGet (jsDefaults (jsPick i (jsKeys s)) (schemaDefaults s)) k := by
  by_cases hk : k ∈ jsKeys s
  · rw [jsGet_clean_mem hk]
    cases hb : jsGet (jsDefaults (jsPick i (jsKeys s)) (schemaDefaults s)) k with
    | none =>
      simp only []
      exact clean_none_inv hb
    | some v =>
      simp only []
      by_cases hu : v.isUndef
      · have hv : v = .undef := (isUndef_iff v).mp hu
        subst hv
        rcases clean_undef_inv hb with hd | hd <;> simp [hd, JSValue.isUndef]
      · simp [hu]
  · rw [jsGet_clean_of_not_mem hk, jsGet_clean_of_not_mem hk]

theorem validateInputValue_as_obj (fenv : FEnv) (k : String) (s : JSObj)
    (recordInput : JSValue) :
    validateInputValue fenv k s recordInput
      = validateInputValue fenv k s
          (.obj (match recordInput with | .obj o => o | _ => [])) := by
  cases recordInput <;> rfl

theorem validateInputValue_ne_ok_false (fenv : FEnv) (k : String) (s i : JSObj) :
    validateInputValue fenv k s (.obj i) ≠ .ok false := by
  intro hcontra
  by_cases hp : jsHas i k
  · rw [validateInputValue_present hp] at hcontra
    cases hio : jsInOp "type" (jsIndex s k) with
    | none => simp [hio] at hcontra
    | some hasType =>
      simp only [hio] at hcontra
      cases hasType with
      | false => simp [pure, Except.pure] at hcontra
      | true =>
        simp only [not_true, if_false] at hcontra
        cases hjd : jsDot (jsIndex s k) "type" with
        | none => simp [hjd] at hcontra
        | some tv =>
          simp only [hjd] at hcontra
          cases hval : isValidForType fenv tv (jsIndex i k) with
          | error e => simp [hval, bind, Except.bind] at hcontra
          | ok b =>
            simp only [hval, bind, Except.bind] at hcontra
            cases b with
            | false => simp at hcontra
            | true => simp [pure, Except.pure] at hcontra
  · rw [validateInputValue_absent (Bool.eq_false_iff.mpr hp)] at hcontra
    cases hr : isFieldRequired k s with
    | error e => simp [hr, bind, Except.bind] at hcontra
    | ok b =>
      simp only [hr, bind, Except.bind] at hcontra
      cases b with
      | false => simp [pure, Except.pure] at hcontra
      | true => simp at hcontra

theorem lodashEvery_ok_inv {keys : List String} {check : String → Except RecErr Bool} {b : Bool}
    (h : lodashEvery keys check = .ok b)
    (hnf : ∀ k ∈ keys, check k ≠ .ok false) :
    b = true ∧ ∀ k ∈ keys, check k = .ok true := by
  induction keys with
  | nil =>
    refine ⟨(Except.ok.inj h).symm, ?_⟩
    intro k hk
    simp at hk
  | cons k rest ih =>
    have hstep : lodashEvery (k :: rest) check
        = (do
            let c ← check k
            if c then lodashEvery rest check else .ok false) := rfl
    rw [hstep] at h
    cases hc : check k with
    | error e => rw [hc] at h; simp [bind, Except.bind] at h
    | ok c =>
      rw [hc] at h
      cases c with
      | false => exact absurd hc (hnf k (List.mem_cons_self k rest))
      | true =>
        have h2 : lodashEvery rest check = .ok b := h
        obtain ⟨hb, hall⟩ := ih h2 (fun g hg => hnf g (List.mem_cons_of_mem k hg))
        refine ⟨hb, ?_⟩
        intro g hg
        rcases List.mem_cons.mp hg with rfl | hg2
        · exact hc
        · exact hall g hg2

theorem jsGet_schemaDefaults_rule {s : JSObj} (hnd : (jsKeys s).Nodup) {k : String}
    {o_r : JSObj} (hrule : jsGet s k = some (.obj o_r)) :
    jsGet (schemaDefaults s) k = jsGet o_r "default" := by
  rw [jsGet_schemaDefaults hnd k]
  simp only [hrule]

theorem revalidate_clean {fenv : FEnv} {s : JSObj} (hnd : (jsKeys s).Nodup)
    (hvalid : validateRecordSchema fenv (.obj s) = .ok true)
    {i : JSObj}
    (hvals : ∀ k ∈ jsKeys s, validateInputValue fenv k s (.obj i) = .ok true) :
    ∀ k ∈ jsKeys s, validateInputValue fenv k s
      (.obj (jsDefaults (jsPick i (jsKeys s)) (schemaDefaults s))) = .ok true := by
  have hschema : ∀ kv ∈ s, isRecordSchemaValue fenv kv.2 = .ok true := by
    apply validateSchemaValues_forall
    rw [validateRecordSchema] at hvalid
    by_cases hemp : s.isEmpty
    · rw [if_pos hemp] at hvalid
      exact absurd hvalid (by simp)
    · rw [if_neg hemp] at hvalid
      exact hvalid
  intro k hk
  obtain ⟨rule, hrule⟩ : ∃ v, jsGet s k = some v := by
    have hks := (jsGet_isSome_iff_mem s k).mpr hk
    cases hg : jsGet s k with
    | none => rw [hg] at hks; simp at hks
    | some v => exact ⟨v, rfl⟩
  cases rule with
  | obj o_r =>
    have hrsv : isRecordSchemaValue fenv (.obj o_r) = .ok true :=
      hschema (k, .obj o_r) (jsGet_mem hrule)
    by_cases hbk : jsHas (jsDefaults (jsPick i (jsKeys s)) (schemaDefaults s)) k
    · by_cases htype : jsHas o_r "type"
      · rw [validateInputValue_obj_present_type hrule hbk htype]
        suffices hv : isValidForType fenv (jsIndex o_r "type")
            (jsIndex (jsDefaults (jsPick i (jsKeys s)) (schemaDefaults s)) k) = .ok true by
          rw [hv]
          rfl
        obtain ⟨w, hw⟩ : ∃ w,
            jsGet (jsDefaults (jsPick i (jsKeys s)) (schemaDefaults s)) k = some w := by
          cases hg : jsGet (jsDefaults (jsPick i (jsKeys s)) (schemaDefaults s)) k with
          | none => rw [jsHas, hg] at hbk; simp at hbk
          | some w => exact ⟨w, rfl⟩
        rw [show jsIndex (jsDefaults (jsPick i (jsKeys s)) (schemaDefaults s)) k = w from by
          simp [jsIndex, hw]]
        rw [jsGet_clean_mem hk] at hw
        cases hgi : jsGet i k with
        | some v =>
          simp only [hgi] at hw
          have hpres : jsHas i k = true := by simp [jsHas, hgi]
          have hvin := validateInputValue_present_type_inv hrule hpres htype (hvals k hk)
          rw [show jsIndex i k = v from by simp [jsIndex, hgi]] at hvin
          by_cases hu : v.isUndef
          · rw [if_pos hu] at hw
            cases hD : jsGet (schemaDefaults s) k with
            | none =>
              rw [hD, Option.getD_none] at hw
              rw [← Option.some.inj hw]
              exact hvin
            | some d =>
              rw [hD, Option.getD_some] at hw
              have hDd : jsGet o_r "default" = some d := by
                rw [← jsGet_schemaDefaults_rule hnd hrule]
                exact hD
              have hhasdef : jsHas o_r "default" = true := by simp [jsHas, hDd]
              have hvd := isRecordSchemaValue_type_default_inv hrsv htype hhasdef
              rw [show jsIndex o_r "default" = d from by simp [jsIndex, hDd]] at hvd
              rw [← Option.some.inj hw]
              exact hvd
          · rw [if_neg hu] at hw
            rw [← Option.some.inj hw]
            exact hvin
        | none =>
          simp only [hgi] at hw
          have hDd : jsGet o_r "default" = some w := by
            rw [← jsGet_schemaDefaults_rule hnd hrule]
            exact hw
          have hhasdef : jsHas o_r "default" = true := by simp [jsHas, hDd]
          have hvd := isRecordSchemaValue_type_default_inv hrsv htype hhasdef
          rw [show jsIndex o_r "default" = w from by simp [jsIndex, hDd]] at hvd
          exact hvd
      · exact validateInputValue_obj_present_notype hrule hbk
          (Bool.eq_false_iff.mpr htype)
    · have hbf : jsHas (jsDefaults (jsPick i (jsKeys s)) (schemaDefaults s)) k = false :=
        Bool.eq_false_iff.mpr hbk
      have hgi : jsGet i k = none := by
        cases hgi : jsGet i k with
        | none => rfl
        | some v =>
          have hsome : jsGet (jsDefaults (jsPick i (jsKeys s)) (schemaDefaults s)) k
              = some (if v.isUndef then (jsGet (schemaDefaults s) k).getD v else v) := by
            rw [jsGet_clean_mem hk]
            simp only [hgi]
          rw [jsHas, hsome] at hbf
          simp at hbf
      have habs : jsHas i k = false := by simp [jsHas, hgi]
      have hreq := validateInputValue_absent_inv habs (hvals k hk)
      exact validateInputValue_absent_ok hbf hreq
  | func a fid => exact validateInputValue_func hrule
  | undef =>
    have := hvals k hk
    rw [validateInputValue_nil hrule rfl] at this
    exact absurd this (by simp)
  | jsNull =>
    have := hvals k hk
    rw [validateInputValue_nil hrule rfl] at this
    exact absurd this (by simp)
  | bool b2 =>
    obtain ⟨e, he⟩ := @isRecordSchemaValue_prim_error fenv (.bool b2) rfl rfl trivial
    have := hschema (k, .bool b2) (jsGet_mem hrule)
    rw [he] at this
    exact absurd this (by simp)
  | num n =>
    obtain ⟨e, he⟩ := @isRecordSchemaValue_prim_error fenv (.num n) rfl rfl trivial
    have := hschema (k, .num n) (jsGet_mem hrule)
    rw [he] at this
    exact absurd this (by simp)
  | str s2 =>
    obtain ⟨e, he⟩ := @isRecordSchemaValue_prim_error fenv (.str s2) rfl rfl trivial
    have := hschema (k, .str s2) (jsGet_mem hrule)
    rw [he] at this
    exact absurd this (by simp)

/-! ### Lemmas about definition checking -/

theorem checkKey_type_ok {o : JSObj}
    (h : (jsIndex o "type").isUndef = true ∨ isTypeString (jsIndex o "type") = true ∨
      isValidatorFunction (jsIndex o "type") = true) :
    ∃ c, Definition.checkKey o "type" = .ok c := by
  by_cases hu : (jsIndex o "type").isUndef
  · exact ⟨true, by simp [Definition.checkKey, hu, pure, Except.pure, bind, Except.bind]⟩
  · rcases h with h | h | h
    · exact absurd h (by simp [hu])
    · exact ⟨false, by simp [Definition.checkKey, hu, Definition.validatorType, h, truthy, pure, Except.pure, bind, Except.bind]⟩
    · refine ⟨false, ?_⟩
      by_cases ht : isTypeString (jsIndex o "type") <;>
        simp [Definition.checkKey, hu, Definition.validatorType, h, ht, truthy, pure, Except.pure, bind, Except.bind]

theorem checkKey_required_ok {o : JSObj}
    (h : (jsIndex o "required").isUndef = true ∨ ∃ b, jsIndex o "required" = .bool b) :
    ∃ c, Definition.checkKey o "required" = .ok c := by
  by_cases hu : (jsIndex o "required").isUndef
  · exact ⟨true, by simp [Definition.checkKey, hu, pure, Except.pure, bind, Except.bind]⟩
  · rcases h with h | ⟨b, hb⟩
    · exact absurd h (by simp [hu])
    · exact ⟨false, by simp [Definition.checkKey, hu, Definition.validatorRequired, hb, truthy, JSValue.isUndef, pure, Except.pure, bind, Except.bind]⟩

theorem checkKey_enumerable_ok {o : JSObj}
    (h : (jsIndex o "enumerable").isUndef = true ∨ ∃ b, jsIndex o "enumerable" = .bool b) :
    ∃ c, Definition.checkKey o "enumerable" = .ok c := by
  by_cases hu : (jsIndex o "enumerable").isUndef
  · exact ⟨true, by simp [Definition.checkKey, hu, pure, Except.pure, bind, Except.bind]⟩
  · rcases h with h | ⟨b, hb⟩
    · exact absurd h (by simp [hu])
    · exact ⟨false,
        by simp [Definition.checkKey, hu, Definition.validatorEnumerable, hb, truthy, JSValue.isUndef, pure, Except.pure, bind, Except.bind]⟩

theorem checkKey_default_ok (o : JSObj) :
    ∃ c, Definition.checkKey o "default" = .ok c := by
  by_cases hu : (jsIndex o "default").isUndef
  · exact ⟨true, by simp [Definition.checkKey, hu, pure, Except.pure, bind, Except.bind]⟩
  · exact ⟨true, by simp [Definition.checkKey, hu, truthy, pure, Except.pure, bind, Except.bind]⟩

/-! ### Claims -/

/-- C1: the read-back property fails on the code.  With the shape
`\x7bwithDefault: \x7bdefault: 5\x7d\x7d` and the constructor input
`\x7bwithDefault: undefined\x7d` — an input the constructor accepts, supplying
a value for the declared field — construction succeeds but reading the field
back yields the default `5`, not the supplied value `undefined`, because
`applyDefaults` uses `_.defaults`, which also replaces present-but-`undefined`
bindings. -/
theorem C1_read_back_fails_on_supplied_undefined :
    (recordCtor (fun _ _ => false) ⟨[("withDefault", .obj [("default", .num 5)])]⟩
        (.obj [("withDefault", .undef)])).map
      (fun r => (r.read "withDefault", r.enumKeys))
    = .ok (.num 5, ["withDefault"]) := rfl

/-- C3: `applyDefaults` does not leave a field supplied with the value
`undefined` untouched: with the schema `\x7bwithDefault: \x7bdefault: 5\x7d\x7d`
and the input `\x7bwithDefault: undefined\x7d`, it returns
`\x7bwithDefault: 5\x7d`, substituting the default for the explicitly supplied
`undefined` (lodash `_.defaults` replaces destination properties that resolve
to `undefined`, present or not). -/
theorem C3_applyDefaults_replaces_explicit_undefined :
    RecordSchema.applyDefaults ⟨[("withDefault", .obj [("default", .num 5)])]⟩
      [("withDefault", .undef)] = [("withDefault", .num 5)] := rfl

/-- C2: for a field declared required with no default, construction with that
field absent from the input fails with the missing-field error naming the
field; for a field declared required that also carries a default, construction
with the field absent succeeds (provided every other declared field validates)
and the new instance's field equals the default.  `set` and `remove` build
their result through this same constructor, so the same holds for them. -/
theorem C2_required_field_construction (fenv : FEnv) (s : JSObj)
    (hnd : (jsKeys s).Nodup) (i : JSObj) (f : String) (o_f : JSObj)
    (hrule : jsGet s f = some (.obj o_f))
    (hreq : truthy (jsIndex o_f "required") = true)
    (habs : jsHas i f = false)
    (hothers : ∀ g ∈ jsKeys s, g ≠ f → validateInputValue fenv g s (.obj i) = .ok true) :
    (jsHas o_f "default" = false →
      recordCtor fenv ⟨s⟩ (.obj i) = .error (.missingField f)) ∧
    (∀ d, jsGet o_f "default" = some d →
      ∃ r, recordCtor fenv ⟨s⟩ (.obj i) = .ok r ∧ r.read f = d) := by
  have hfmem : f ∈ jsKeys s := (jsGet_isSome_iff_mem s f).mp (by simp [hrule])
  constructor
  · intro hnodef
    have hreqf : isFieldRequired f s = .ok true := by
      rw [isFieldRequired_obj hrule, hreq, hnodef]
      rfl
    have hval : validateInputValue fenv f s (.obj i) = .error (.missingField f) := by
      rw [validateInputValue_absent habs, hreqf]
      rfl
    have hvin : RecordSchema.validateInput fenv ⟨s⟩ (.obj i) = .error (.missingField f) := by
      rw [validateInput_obj]
      exact lodashEvery_error hnd hfmem hval hothers
    exact recordCtor_of_validate_error hvin
  · intro d hd
    have hhasdef : jsHas o_f "default" = true := by simp [jsHas, hd]
    have hreqf : isFieldRequired f s = .ok false := by
      rw [isFieldRequired_obj hrule, hreq, hhasdef]
      rfl
    have hval : validateInputValue fenv f s (.obj i) = .ok true := by
      rw [validateInputValue_absent habs, hreqf]
      rfl
    have hvin : RecordSchema.validateInput fenv ⟨s⟩ (.obj i) = .ok true := by
      rw [validateInput_obj]
      apply lodashEvery_ok_of_forall
      intro g hg
      by_cases hgf : g = f
      · subst hgf
        exact hval
      · exact hothers g hg hgf
    have hif : jsGet i f = none := by
      cases hg : jsGet i f with
      | none => rfl
      | some v => rw [jsHas, hg] at habs; simp at habs
    have hclean : jsGet (RecordSchema.applyDefaults ⟨s⟩
        (RecordSchema.removeInvalidInputKeys ⟨s⟩ (.obj i))) f = some d := by
      show jsGet (jsDefaults (jsPick i (jsKeys s)) (schemaDefaults s)) f = some d
      rw [jsGet_defaults, jsGet_pick, if_pos hfmem, hif, jsGet_schemaDefaults hnd, hrule]
      exact hd
    have hacc : accFind (RecordSchema.getAccessorsForInput ⟨s⟩
        (RecordSchema.applyDefaults ⟨s⟩ (RecordSchema.removeInvalidInputKeys ⟨s⟩ (.obj i)))) f
        = some (RecordAccessor.make d true) := by
      rw [RecordSchema.getAccessorsForInput, accFind_map, jsGet_pick]
      rw [show jsKeys (RecordSchema.mk s).schema = jsKeys s from rfl, if_pos hfmem, hclean]
      rfl
    refine ⟨_, recordCtor_of_validate_ok hvin, ?_⟩
    show (match accFind (RecordSchema.getAccessorsForInput ⟨s⟩
        (RecordSchema.applyDefaults ⟨s⟩ (RecordSchema.removeInvalidInputKeys ⟨s⟩ (.obj i)))) f with
      | some a => a.value
      | none => jsIndex [] f) = d
    rw [hacc]
    rfl

/-- C2 witness: with the shape `\x7ba: \x7brequired: true\x7d\x7d` the empty
input is rejected with the missing-field error for `a`, and with the shape
`\x7bb: \x7brequired: true, default: 5\x7d\x7d` the empty input constructs an
instance whose field `b` is `5`. -/
theorem C2_witness :
    (recordCtor (fun _ _ => false) ⟨[("a", .obj [("required", .bool true)])]⟩ (.obj [])
      = .error (.missingField "a")) ∧
    (∃ r, recordCtor (fun _ _ => false)
        ⟨[("b", .obj [("required", .bool true), ("default", .num 5)])]⟩ (.obj [])
      = .ok r ∧ r.read "b" = .num 5) := by
  constructor
  · exact (C2_required_field_construction (fun _ _ => false)
      [("a", .obj [("required", .bool true)])] (by decide) [] "a"
      [("required", .bool true)] rfl rfl rfl
      (by intro g hg hne; simp [jsKeys] at hg; exact absurd hg hne)).1 rfl
  · exact (C2_required_field_construction (fun _ _ => false)
      [("b", .obj [("required", .bool true), ("default", .num 5)])] (by decide) [] "b"
      [("required", .bool true), ("default", .num 5)] rfl rfl rfl
      (by intro g hg hne; simp [jsKeys] at hg; exact absurd hg hne)).2 (.num 5) rfl

/-- C4 counterexample: the claim says a raw rule `\x7benumerable: false\x7d`
constructs successfully, but schema construction (`RecordSchema`, the module
the current Record factory uses) rejects it: `enumerable` is outside its
allowed key set `\x7btype, default, required\x7d`. -/
theorem C4_counterexample_enumerable_rejected_by_schema :
    RecordSchema.make (fun _ _ => false) (.obj [("a", .obj [("enumerable", .bool false)])])
      = .error .schemaValueInvalidKey := rfl

/-- C4 amended: `FieldValue` descriptor construction accepts exactly the keys
`\x7btype, required, enumerable, default\x7d` — every rule drawn from those
keys with a valid type and boolean required/enumerable constructs, and any rule
using a key outside them fails with the disallowed-keys error — while
`RecordSchema` schema construction accepts only `\x7btype, default,
required\x7d`: a rule using any other key (`enumerable` included) fails schema
validation with the invalid-key error. -/
theorem C4_amended_field_rule_keys (fenv : FEnv) (o : JSObj) :
    ((∀ k ∈ jsKeys o, ALLOWED_KEYS.contains k = true) →
      ((jsIndex o "type").isUndef = true ∨ isTypeString (jsIndex o "type") = true ∨
        isValidatorFunction (jsIndex o "type") = true) →
      ((jsIndex o "required").isUndef = true ∨ ∃ b, jsIndex o "required" = .bool b) →
      ((jsIndex o "enumerable").isUndef = true ∨ ∃ b, jsIndex o "enumerable" = .bool b) →
      ∃ fv, FieldValue.make (.obj o) = .ok fv) ∧
    (∀ k ∈ jsKeys o, ALLOWED_KEYS.contains k = false →
      ∃ ks, FieldValue.make (.obj o) = .error (.disallowedKeys ks) ∧ ks ≠ []) ∧
    (∀ k ∈ jsKeys o, (["type", "default", "required"].contains k) = false →
      isRecordSchemaValue fenv (.obj o) = .error .schemaValueInvalidKey) := by
  have hcvd : Definition.checkValidDefinition (.obj o) =
      (if ((jsKeys o).filter (fun k => !ALLOWED_KEYS.contains k)).isEmpty then
        ALLOWED_KEYS.foldlM (fun definitionIsValid keyName => do
          let keyIsValid ← Definition.checkKey o keyName
          pure (definitionIsValid && keyIsValid)) true
      else .error (.disallowedKeys ((jsKeys o).filter (fun k => !ALLOWED_KEYS.contains k)))) :=
    rfl
  refine ⟨?_, ?_, ?_⟩
  · intro hkeys htype hreq henum
    obtain ⟨c1, hc1⟩ := checkKey_type_ok htype
    obtain ⟨c2, hc2⟩ := checkKey_required_ok hreq
    obtain ⟨c3, hc3⟩ := checkKey_enumerable_ok henum
    obtain ⟨c4, hc4⟩ := checkKey_default_ok o
    have hdis : ((jsKeys o).filter (fun k => !ALLOWED_KEYS.contains k)).isEmpty = true := by
      rw [List.isEmpty_iff, List.filter_eq_nil_iff]
      intro k hk
      simpa using hkeys k hk
    have hfold : ALLOWED_KEYS.foldlM (fun definitionIsValid keyName => do
        let keyIsValid ← Definition.checkKey o keyName
        pure (definitionIsValid && keyIsValid)) true
        = .ok (((true && c1) && c2) && c3 && c4) := by
      simp [ALLOWED_KEYS, List.foldlM, hc1, hc2, hc3, hc4, bind, Except.bind, pure, Except.pure]
    have hok : Definition.checkValidDefinition (.obj o) = .ok (((true && c1) && c2) && c3 && c4) := by
      rw [hcvd, hdis, if_pos rfl, hfold]
    refine ⟨⟨jsDefaults o FieldValue.Defaults⟩, ?_⟩
    simp [FieldValue.make, hok, bind, Except.bind, pure, Except.pure]
  · intro k hk hbad
    have hmem : k ∈ (jsKeys o).filter (fun k => !ALLOWED_KEYS.contains k) :=
      List.mem_filter.mpr ⟨hk, by simpa using hbad⟩
    have hdis : ((jsKeys o).filter (fun k => !ALLOWED_KEYS.contains k)).isEmpty = false := by
      rw [List.isEmpty_eq_false_iff_exists_mem]
      exact ⟨k, hmem⟩
    have herr : Definition.checkValidDefinition (.obj o)
        = .error (.disallowedKeys ((jsKeys o).filter (fun k => !ALLOWED_KEYS.contains k))) := by
      rw [hcvd, hdis]
      simp
    refine ⟨(jsKeys o).filter (fun k => !ALLOWED_KEYS.contains k), ?_, List.ne_nil_of_mem hmem⟩
    simp [FieldValue.make, herr, bind, Except.bind]
  · intro k hk hbad
    have hne : o ≠ [] := by
      intro h0
      rw [h0] at hk
      simp [jsKeys] at hk
    have hempty : isEmptyObject (.obj o) = false := by
      simp [isEmptyObject, JSValue.isNil, List.isEmpty_iff, hne]
    have hinv : doesSchemaValueContainInvalidKeys o = true := by
      have hnot : k ∉ ["type", "default", "required"] := by simpa using hbad
      have hmem2 : k ∈ (jsKeys o).filter
          (fun k => !(["type", "default", "required"].contains k)) :=
        List.mem_filter.mpr ⟨hk, by simpa using hnot⟩
      have hne2 : ((jsKeys o).filter
          (fun k => !(["type", "default", "required"].contains k))).isEmpty = false := by
        cases he : ((jsKeys o).filter
            (fun k => !(["type", "default", "required"].contains k))).isEmpty with
        | false => rfl
        | true =>
          rw [List.isEmpty_iff] at he
          rw [he] at hmem2
          exact absurd hmem2 (List.not_mem_nil k)
      unfold doesSchemaValueContainInvalidKeys
      rw [hne2]
      rfl
    simp [isRecordSchemaValue, hempty, hinv]

/-- C4 witness: the amended theorem instantiated — the rule
`\x7benumerable: false\x7d` constructs a `FieldValue` but fails schema-value
validation, and the rule `\x7bbogus: 1\x7d` fails `FieldValue` construction
with a non-empty disallowed-keys list. -/
theorem C4_amended_witness :
    (∃ fv, FieldValue.make (.obj [("enumerable", .bool false)]) = .ok fv) ∧
    (isRecordSchemaValue (fun _ _ => false) (.obj [("enumerable", .bool false)])
      = .error .schemaValueInvalidKey) ∧
    (∃ ks, FieldValue.make (.obj [("bogus", .num 1)])
      = .error (.disallowedKeys ks) ∧ ks ≠ []) := by
  refine ⟨?_, ?_, ?_⟩
  · exact (C4_amended_field_rule_keys (fun _ _ => false) [("enumerable", .bool false)]).1
      (by decide) (Or.inl rfl) (Or.inl rfl) (Or.inr ⟨false, rfl⟩)
  · exact (C4_amended_field_rule_keys (fun _ _ => false) [("enumerable", .bool false)]).2.2
      "enumerable" (by simp [jsKeys]) rfl
  · exact (C4_amended_field_rule_keys (fun _ _ => false) [("bogus", .num 1)]).2.1
      "bogus" (by simp [jsKeys]) rfl

/-- C5 counterexample: direct assignment does not fail for every field name.
With the schema `\x7ba: \x7b\x7d\x7d` and the instance built from
`\x7ba: 1\x7d`, assigning to the name `zzz` — which has no accessor — succeeds
and changes the instance: its enumerable keys become `[a, zzz]`.  (The same
happens for a declared field absent from the instance, since the code only
installs accessors for present fields.) -/
theorem C5_counterexample_assignment_succeeds_without_accessor :
    ((recordCtor (fun _ _ => false) ⟨[("a", .obj [])]⟩ (.obj [("a", .num 1)])).bind
      (fun r => r.assign "zzz" (.num 2))).map (fun r => (r.enumKeys, r.read "zzz"))
    = .ok (["a", "zzz"], .num 2) := rfl

/-- C5 amended: direct assignment to a property that is present on the instance
(one with an installed accessor) always fails with the immutable-write error,
for every assigned value, and — the failure being an exception — produces no
updated instance; assignment to any name without an accessor (a declared field
absent from the backing state, or an undeclared name) instead performs an
ordinary write creating a data property on the instance. -/
theorem C5_amended_assignment_semantics (r : RecordInstance) (k : String) (v : JSValue) :
    ((accFind r.accessors k).isSome = true → r.assign k v = .error .immutableWrite) ∧
    (accFind r.accessors k = none →
      r.assign k v = .ok ⟨r.privates, r.accessors, jsSet r.dataProps k v⟩) := by
  constructor
  · intro h
    cases ha : accFind r.accessors k with
    | none => rw [ha] at h; simp at h
    | some a => simp [RecordInstance.assign, ha]
  · intro h
    simp [RecordInstance.assign, h]

/-- C5 witness: the amended theorem instantiated on a concrete instance — the
setter of the present field `a` throws, and assignment to the accessor-less
name `b` performs an ordinary write. -/
theorem C5_amended_witness :
    (RecordInstance.assign ⟨[("a", .num 1)], [("a", RecordAccessor.make (.num 1) true)], []⟩
      "a" (.num 9) = .error .immutableWrite) ∧
    (RecordInstance.assign ⟨[("a", .num 1)], [("a", RecordAccessor.make (.num 1) true)], []⟩
      "b" (.num 9)
      = .ok ⟨[("a", .num 1)], [("a", RecordAccessor.make (.num 1) true)], [("b", .num 9)]⟩) := by
  constructor
  · exact (C5_amended_assignment_semantics
      ⟨[("a", .num 1)], [("a", RecordAccessor.make (.num 1) true)], []⟩ "a" (.num 9)).1 rfl
  · exact (C5_amended_assignment_semantics
      ⟨[("a", .num 1)], [("a", RecordAccessor.make (.num 1) true)], []⟩ "b" (.num 9)).2 rfl

theorem enumKeys_congr {r1 r2 : RecordInstance} (ha : r1.accessors = r2.accessors)
    (hd : r1.dataProps = r2.dataProps) : r1.enumKeys = r2.enumKeys := by
  rw [RecordInstance.enumKeys, RecordInstance.enumKeys, ha, hd]

theorem read_congr {r1 r2 : RecordInstance} (ha : r1.accessors = r2.accessors)
    (hd : r1.dataProps = r2.dataProps) (k : String) : r1.read k = r2.read k := by
  rw [RecordInstance.read, RecordInstance.read, ha, hd]

/-- C8: setting a field that is present on an instance to the instance's
current value at that field succeeds and returns an instance structurally
equivalent to the original: the same enumerable keys, and every property read
yields the same value.  The hypotheses are that the schema was accepted by
schema validation and the instance was produced by the Record constructor (as
every instance is). -/
theorem C8_set_current_value_structural_noop (fenv : FEnv) (s : JSObj)
    (hnd : (jsKeys s).Nodup)
    (hvalid : validateRecordSchema fenv (.obj s) = .ok true)
    (values : JSValue) (r : RecordInstance)
    (hr : recordCtor fenv ⟨s⟩ values = .ok r)
    (f : String) (hf : (accFind r.accessors f).isSome = true) :
    ∃ r2, Record.set fenv ⟨s⟩ r f (r.read f) = .ok r2 ∧
      r2.enumKeys = r.enumKeys ∧ (∀ k, r2.read k = r.read k) := by
  obtain ⟨bv, hv⟩ : ∃ bv, RecordSchema.validateInput fenv ⟨s⟩ values = .ok bv := by
    cases hv : RecordSchema.validateInput fenv ⟨s⟩ values with
    | error e =>
      rw [recordCtor_of_validate_error hv] at hr
      exact absurd hr (by simp)
    | ok bv => exact ⟨bv, rfl⟩
  obtain ⟨i, hclean, hvals⟩ : ∃ i : JSObj,
      RecordSchema.removeInvalidInputKeys ⟨s⟩ values = jsPick i (jsKeys s) ∧
      ∀ k ∈ jsKeys s, validateInputValue fenv k s (.obj i) = .ok true := by
    cases values with
    | obj i0 =>
      refine ⟨i0, rfl, ?_⟩
      rw [validateInput_obj] at hv
      exact (lodashEvery_ok_inv hv
        (fun k hk => validateInputValue_ne_ok_false fenv k s i0)).2
    | undef =>
      refine ⟨[], (jsPick_nil (jsKeys s)).symm, ?_⟩
      have hv0 : RecordSchema.validateInput fenv ⟨s⟩ .undef
          = lodashEvery (jsKeys s) (fun key => validateInputValue fenv key s .undef) := rfl
      have hv2 : lodashEvery (jsKeys s)
          (fun key => validateInputValue fenv key s (.obj [])) = .ok bv := by
        rw [lodashEvery_congr
          (fun k hk => (validateInputValue_as_obj fenv k s .undef).symm), ← hv0]
        exact hv
      exact (lodashEvery_ok_inv hv2
        (fun k hk => validateInputValue_ne_ok_false fenv k s [])).2
    | jsNull =>
      refine ⟨[], (jsPick_nil (jsKeys s)).symm, ?_⟩
      have hv0 : RecordSchema.validateInput fenv ⟨s⟩ .jsNull
          = lodashEvery (jsKeys s) (fun key => validateInputValue fenv key s .jsNull) := rfl
      have hv2 : lodashEvery (jsKeys s)
          (fun key => validateInputValue fenv key s (.obj [])) = .ok bv := by
        rw [lodashEvery_congr
          (fun k hk => (validateInputValue_as_obj fenv k s .jsNull).symm), ← hv0]
        exact hv
      exact (lodashEvery_ok_inv hv2
        (fun k hk => validateInputValue_ne_ok_false fenv k s [])).2
    | bool b2 =>
      exact absurd ((show RecordSchema.validateInput fenv ⟨s⟩ (.bool b2)
        = .error .inputNotPlainObject from rfl).symm.trans hv) (by simp)
    | num n =>
      exact absurd ((show RecordSchema.validateInput fenv ⟨s⟩ (.num n)
        = .error .inputNotPlainObject from rfl).symm.trans hv) (by simp)
    | str s2 =>
      exact absurd ((show RecordSchema.validateInput fenv ⟨s⟩ (.str s2)
        = .error .inputNotPlainObject from rfl).symm.trans hv) (by simp)
    | func a fid =>
      exact absurd ((show RecordSchema.validateInput fenv ⟨s⟩ (.func a fid)
        = .error .inputNotPlainObject from rfl).symm.trans hv) (by simp)
  have hcleaneq : RecordSchema.applyDefaults ⟨s⟩ (RecordSchema.removeInvalidInputKeys ⟨s⟩ values)
      = jsDefaults (jsPick i (jsKeys s)) (schemaDefaults s) := by
    show jsDefaults (RecordSchema.removeInvalidInputKeys ⟨s⟩ values) (schemaDefaults s)
      = jsDefaults (jsPick i (jsKeys s)) (schemaDefaults s)
    rw [hclean]
  have hrEq := recordCtor_ok_inv hr
  have haccs : r.accessors
      = (jsPick (jsDefaults (jsPick i (jsKeys s)) (schemaDefaults s)) (jsKeys s)).map
          (fun kv => (kv.1, RecordAccessor.make kv.2 true)) := by
    rw [hrEq]
    show RecordSchema.getAccessorsForInput ⟨s⟩
        (RecordSchema.applyDefaults ⟨s⟩ (RecordSchema.removeInvalidInputKeys ⟨s⟩ values)) = _
    rw [hcleaneq]
    rfl
  have hpriv : r.privates = jsDefaults (jsPick i (jsKeys s)) (schemaDefaults s) := by
    rw [hrEq]
    show RecordSchema.applyDefaults ⟨s⟩ (RecordSchema.removeInvalidInputKeys ⟨s⟩ values) = _
    rw [hcleaneq]
  have hdp : r.dataProps = [] := by rw [hrEq]
  have hacc2 : accFind r.accessors f
      = (jsGet (jsPick (jsDefaults (jsPick i (jsKeys s)) (schemaDefaults s)) (jsKeys s)) f).map
          (fun v => RecordAccessor.make v true) := by
    rw [haccs, accFind_map]
  have hf2 := hf
  rw [hacc2, jsGet_pick] at hf2
  by_cases hfk : f ∈ jsKeys s
  case neg =>
    rw [if_neg hfk] at hf2
    simp at hf2
  case pos =>
  rw [if_pos hfk] at hf2
  obtain ⟨w, hw⟩ : ∃ w,
      jsGet (jsDefaults (jsPick i (jsKeys s)) (schemaDefaults s)) f = some w := by
    cases hgb : jsGet (jsDefaults (jsPick i (jsKeys s)) (schemaDefaults s)) f with
    | none => rw [hgb] at hf2; simp at hf2
    | some w => exact ⟨w, rfl⟩
  have hread : r.read f = w := by
    rw [RecordInstance.read, hacc2, jsGet_pick, if_pos hfk, hw]
    rfl
  have hhp : RecordSchema.hasProperty ⟨s⟩ f = true := by
    show jsHas s f = true
    exact (jsHas_iff_mem s f).mpr hfk
  have hassert : assertValidProperty ⟨s⟩ f = .ok true := by
    rw [assertValidProperty, if_neg (by simp [hhp])]
  have hnodb : (jsKeys (jsDefaults (jsPick i (jsKeys s)) (schemaDefaults s))).Nodup :=
    nodup_keys_defaults (nodup_keys_pick hnd) ((jsKeys_schemaDefaults_sublist s).nodup hnd)
  have hupd : update r.privates f (r.read f)
      = jsDefaults (jsPick i (jsKeys s)) (schemaDefaults s) := by
    rw [hread, hpriv, update]
    exact jsSet_self hnodb hw
  have hset : Record.set fenv ⟨s⟩ r f (r.read f)
      = recordCtor fenv ⟨s⟩ (.obj (jsDefaults (jsPick i (jsKeys s)) (schemaDefaults s))) := by
    rw [Record.set, hassert]
    show recordCtor fenv ⟨s⟩ (.obj (update r.privates f (r.read f))) = _
    rw [hupd]
  have hvb : RecordSchema.validateInput fenv ⟨s⟩
      (.obj (jsDefaults (jsPick i (jsKeys s)) (schemaDefaults s))) = .ok true := by
    rw [validateInput_obj]
    exact lodashEvery_ok_of_forall (revalidate_clean hnd hvalid hvals)
  have haccseq : RecordSchema.getAccessorsForInput ⟨s⟩
      (RecordSchema.applyDefaults ⟨s⟩ (RecordSchema.removeInvalidInputKeys ⟨s⟩
        (.obj (jsDefaults (jsPick i (jsKeys s)) (schemaDefaults s)))))
      = r.accessors := by
    rw [haccs]
    show (jsPick (jsDefaults
        (jsPick (jsDefaults (jsPick i (jsKeys s)) (schemaDefaults s)) (jsKeys s))
        (schemaDefaults s)) (jsKeys s)).map
          (fun kv => (kv.1, RecordAccessor.make kv.2 true)) = _
    congr 1
    apply jsPick_congr
    intro k hk
    exact jsGet_reclean s i k
  refine ⟨_, by rw [hset]; exact recordCtor_of_validate_ok hvb, ?_, ?_⟩
  · exact enumKeys_congr haccseq hdp.symm
  · intro k
    exact read_congr haccseq hdp.symm k

/-- C8 witness: with the schema
`\x7ba: \x7bdefault: A\x7d, b: \x7b\x7d, c: \x7b\x7d\x7d` and the instance
built from `\x7bc: 6\x7d`, setting `c` to its current value returns an
instance with the same enumerable keys and the same reads at every declared
field. -/
theorem C8_witness :
    ∃ r r2 : RecordInstance,
      recordCtor (fun _ _ => false)
        ⟨[("a", .obj [("default", .str "A")]), ("b", .obj []), ("c", .obj [])]⟩
        (.obj [("c", .num 6)]) = .ok r ∧
      Record.set (fun _ _ => false)
        ⟨[("a", .obj [("default", .str "A")]), ("b", .obj []), ("c", .obj [])]⟩
        r "c" (r.read "c") = .ok r2 ∧
      r2.enumKeys = r.enumKeys ∧ r2.read "a" = r.read "a" ∧ r2.read "c" = r.read "c" := by
  obtain ⟨r, hr⟩ : ∃ r, recordCtor (fun _ _ => false)
      ⟨[("a", .obj [("default", .str "A")]), ("b", .obj []), ("c", .obj [])]⟩
      (.obj [("c", .num 6)]) = .ok r := ⟨_, rfl⟩
  obtain ⟨r2, hset, hkeys, hreads⟩ := C8_set_current_value_structural_noop
    (fun _ _ => false)
    [("a", .obj [("default", .str "A")]), ("b", .obj []), ("c", .obj [])]
    (by decide) (by rfl) (.obj [("c", .num 6)]) r hr "c"
    (by rw [recordCtor_ok_inv hr]; rfl)
  exact ⟨r, r2, hr, hset, hkeys, hreads "a", hreads "c"⟩

/-- C9 counterexample: an absent (`undefined`) definition is not accepted:
`FieldValue` construction throws the not-a-plain-object error on it (the
source's "don't care" test `definition === null || definition === \x7b\x7d`
only ever matches `null`, and the module's own test suite pins that an
`undefined` definition throws). -/
theorem C9_counterexample_undefined_definition_rejected :
    FieldValue.make .undef = .error .notPlainDefinition := rfl

/-- C9 amended: field-descriptor construction succeeds when the definition is
`null`, producing the accept-anything descriptor — no default, not required,
enumerable, and every value (for every validator environment) valid — while an
absent (`undefined`) definition is rejected with the not-a-plain-object
error. -/
theorem C9_amended_null_definition_accept_anything :
    FieldValue.make .jsNull = .ok ⟨FieldValue.Defaults⟩ ∧
    FieldValue.hasDefault ⟨FieldValue.Defaults⟩ = false ∧
    truthy (FieldValue.required ⟨FieldValue.Defaults⟩) = false ∧
    truthy (FieldValue.enumerable ⟨FieldValue.Defaults⟩) = true ∧
    (∀ (fenv : FEnv) (v : JSValue), FieldValue.isValid fenv ⟨FieldValue.Defaults⟩ v = true) ∧
    FieldValue.make .undef = .error .notPlainDefinition := by
  refine ⟨rfl, rfl, rfl, rfl, ?_, rfl⟩
  intro fenv v
  cases v <;> rfl

/-- Lower-casing fixes every `typeof` result: they are all lowercase. -/
theorem jsToLower_jsTypeof (v : JSValue) : jsToLower (jsTypeof v) = jsTypeof v := by
  cases v <;> rfl

/-- C10: a type tag is accepted in any letter case — any string whose
lower-casing is a recognized tag passes `isTypeString`, and a schema declaring
it as a field's `type` validates — but `isValidForType` compares
`typeof value` to the tag exactly as written, and every `typeof` result is
lowercase, so under a tag that is not already lowercase every value fails the
type check. -/
theorem C10_case_insensitive_tag_exact_type_check (fenv : FEnv) (tag : String)
    (hmem : TYPE_STRINGS.contains (jsToLower tag) = true)
    (hcase : tag ≠ jsToLower tag) :
    isTypeString (.str tag) = true ∧
    (∀ fname : String, validateRecordSchema fenv
      (.obj [(fname, .obj [("type", .str tag)])]) = .ok true) ∧
    (∀ v : JSValue, isValidForType fenv (.str tag) v = .ok false) := by
  have hts : isTypeString (.str tag) = true := by
    simp only [isTypeString]
    exact hmem
  refine ⟨hts, ?_, ?_⟩
  · intro fname
    have hrsv : isRecordSchemaValue fenv (.obj [("type", .str tag)]) = .ok true := by
      simp [isRecordSchemaValue, isEmptyObject, JSValue.isNil,
        doesSchemaValueContainInvalidKeys, jsKeys, jsGet, jsHas, hts,
        bind, Except.bind, pure, Except.pure]
    simp [validateRecordSchema, validateSchemaValues, hrsv, bind, Except.bind]
  · intro v
    have hne : (jsTypeof v == tag) = false := by
      cases hb : jsTypeof v == tag with
      | false => rfl
      | true =>
        have heq : jsTypeof v = tag := eq_of_beq hb
        have hfix : jsToLower tag = tag := by
          rw [← heq, jsToLower_jsTypeof]
        exact absurd hfix.symm hcase
    simp [isValidForType, hne]

/-- C10 witness: the tag `"String"` — legal because its lower-casing is the
recognized tag `"string"` — is accepted by schema construction, yet the string
value `"x"` (and every other value) fails its type check. -/
theorem C10_witness :
    isTypeString (.str "String") = true ∧
    validateRecordSchema (fun _ _ => false)
      (.obj [("f", .obj [("type", .str "String")])]) = .ok true ∧
    isValidForType (fun _ _ => false) (.str "String") (.str "x") = .ok false := by
  obtain ⟨h1, h2, h3⟩ := C10_case_insensitive_tag_exact_type_check (fun _ _ => false) "String"
    (by rfl) (by decide)
  exact ⟨h1, h2 "f", h3 (.str "x")⟩

/-- C6: every instance produced by construction, `set` or `remove` has its
enumerable properties drawn from the schema's declared field names, and the
constructor is invariant under restricting its input to the declared fields —
so input keys that are not declared never appear on the resulting instance and
never cause an error (construction succeeds or fails identically with or
without them). -/
theorem C6_enum_keys_subset_schema (fenv : FEnv) (s : JSObj) :
    (∀ (values : JSValue) (r : RecordInstance),
      recordCtor fenv ⟨s⟩ values = .ok r → ∀ k ∈ r.enumKeys, k ∈ jsKeys s) ∧
    (∀ (r : RecordInstance) (p : String) (v : JSValue) (r2 : RecordInstance),
      Record.set fenv ⟨s⟩ r p v = .ok r2 → ∀ k ∈ r2.enumKeys, k ∈ jsKeys s) ∧
    (∀ (r : RecordInstance) (p : String) (r2 : RecordInstance),
      Record.remove fenv ⟨s⟩ r p = .ok r2 → ∀ k ∈ r2.enumKeys, k ∈ jsKeys s) ∧
    (∀ i : JSObj, recordCtor fenv ⟨s⟩ (.obj i)
      = recordCtor fenv ⟨s⟩ (.obj (jsPick i (jsKeys s)))) := by
  refine ⟨?_, ?_, ?_, ?_⟩
  · intro values r h
    exact ctor_enumKeys_subset h
  · intro r p v r2 h
    rw [Record.set] at h
    cases ha : assertValidProperty ⟨s⟩ p with
    | error e => rw [ha] at h; exact absurd h (by simp [bind, Except.bind])
    | ok b =>
      rw [ha] at h
      exact ctor_enumKeys_subset h
  · intro r p r2 h
    rw [Record.remove] at h
    cases ha : assertValidProperty ⟨s⟩ p with
    | error e => rw [ha] at h; exact absurd h (by simp [bind, Except.bind])
    | ok b =>
      rw [ha] at h
      exact ctor_enumKeys_subset h
  · intro i
    have hget : ∀ k ∈ jsKeys s, jsGet i k = jsGet (jsPick i (jsKeys s)) k := by
      intro k hk
      rw [jsGet_pick, if_pos hk]
    have hvi : RecordSchema.validateInput fenv ⟨s⟩ (.obj i)
        = RecordSchema.validateInput fenv ⟨s⟩ (.obj (jsPick i (jsKeys s))) := by
      rw [validateInput_obj, validateInput_obj]
      exact lodashEvery_congr (fun k hk => validateInputValue_input_congr (hget k hk))
    have hpick : RecordSchema.removeInvalidInputKeys ⟨s⟩ (.obj i)
        = RecordSchema.removeInvalidInputKeys ⟨s⟩ (.obj (jsPick i (jsKeys s))) := by
      show jsPick i (jsKeys s) = jsPick (jsPick i (jsKeys s)) (jsKeys s)
      exact jsPick_congr hget
    rw [recordCtor, recordCtor, hvi, hpick]

/-- C6 witness: with the schema `\x7ba: \x7b\x7d\x7d` and the input
`\x7ba: 1, zzz: 2\x7d`, the unknown key `zzz` is dropped without an error —
construction equals construction on the input restricted to `a`, the result's
enumerable keys all lie in the schema, and so do those of a subsequent
`set`. -/
theorem C6_witness :
    (recordCtor (fun _ _ => false) ⟨[("a", .obj [])]⟩
        (.obj [("a", .num 1), ("zzz", .num 2)])
      = recordCtor (fun _ _ => false) ⟨[("a", .obj [])]⟩ (.obj [("a", .num 1)])) ∧
    (∀ r : RecordInstance,
      recordCtor (fun _ _ => false) ⟨[("a", .obj [])]⟩
        (.obj [("a", .num 1), ("zzz", .num 2)]) = .ok r →
      ∀ k ∈ r.enumKeys, k ∈ jsKeys [("a", JSValue.obj [])]) ∧
    (∀ r r2 : RecordInstance,
      Record.set (fun _ _ => false) ⟨[("a", .obj [])]⟩ r "a" (.num 3) = .ok r2 →
      ∀ k ∈ r2.enumKeys, k ∈ jsKeys [("a", JSValue.obj [])]) := by
  obtain ⟨h1, h2, h3, h4⟩ := C6_enum_keys_subset_schema (fun _ _ => false) [("a", .obj [])]
  refine ⟨?_, ?_, ?_⟩
  · have := h4 [("a", .num 1), ("zzz", .num 2)]
    rw [this]
    rfl
  · intro r hr
    exact h1 (.obj [("a", .num 1), ("zzz", .num 2)]) r hr
  · intro r r2 hr
    exact h2 r "a" (.num 3) r2 hr

/-- C7: the remove-then-set round trip fails on the code for the valid value
`undefined`.  With the shape `\x7bf: \x7bdefault: 5\x7d\x7d` (no type
constraint, so every value — `undefined` included — is valid for `f`),
`remove("f")` succeeds, and `set("f", undefined)` then yields an instance whose
field `f` is the default `5`, not the value `undefined` that was set, because
the constructor's defaulting step replaces the present-but-`undefined`
binding. -/
theorem C7_remove_set_undefined_round_trip_fails :
    ((((recordCtor (fun _ _ => false) ⟨[("f", .obj [("default", .num 5)])]⟩
          (.obj [("f", .num 1)])).bind
        (fun r => Record.remove (fun _ _ => false) ⟨[("f", .obj [("default", .num 5)])]⟩
          r "f")).bind
        (fun r => Record.set (fun _ _ => false) ⟨[("f", .obj [("default", .num 5)])]⟩
          r "f" .undef)).map
      (fun r => r.read "f")) = .ok (.num 5) := rfl

end ImmutableRecord
